import Mathlib

/-!
Verification of the turn/real-time simulation core of a tile-based dungeon
crawler: the action-resolution pipeline (actions.py), the enemy AI decision
layer (components/ai.py), the projectile simulation (projectiles.py) and the
Engine scheduler (engine.py), shallowly embedded as pure state transformers
over an explicit world state.

Python object mutation is modelled as explicit state passing: each `perform`
returns the (possibly partially) mutated world together with an optional
Impossible message, so that state mutated before an exception is raised
survives the exception, exactly as in Python.
-/

namespace Rogue

/-- Modelled from the spec: a temporary timed stat buff (fighter.py is not in
the core sources; per the spec and the potion consumables, a buff adds its
amount to the fighter's base power on application and subtracts it again on
expiry, with a turns-left counter decremented by the per-attack refresh). -/
structure Buff where
  amount : Int
  turns_left : Int
deriving Repr, DecidableEq

/-- Modelled from the spec: the fighter stat surface (current hp, max hp,
power, defense, timed buffs).  Equipment bonuses are out of scope and folded
into the base stats. -/
structure Fighter where
  hp : Int
  max_hp : Int
  base_power : Int
  base_defense : Int
  buffs : List Buff
deriving Repr, DecidableEq

/-- Effective power, read directly from the base stat (potion buffs are baked
into `base_power` on application, per StrengthPotionConsumable.activate). -/
def Fighter.power (f : Fighter) : Int := f.base_power

/-- Effective defense. -/
def Fighter.defense (f : Fighter) : Int := f.base_defense

/-- AI strategy variants relevant to the verified claims (components/ai.py).
The Confused/Paralyzed wrappers hold the saved previous strategy and the
remaining-turns counter, exactly as ConfusedEnemy / ParalyzedEnemy do. -/
inductive AI where
  | hostile (path : List (Int × Int))
  | confused (previous : Option AI) (turns_remaining : Int)
  | paralyzed (previous : Option AI) (turns_remaining : Int)
  | blacksmith
deriving Repr

/-- An actor: identity, grid position, combat stats, movement blocking and an
optional AI strategy (entity.py is a collaborator; these are exactly the
fields the core reads). -/
structure Actor where
  id : Nat
  x : Int
  y : Int
  fighter : Fighter
  blocks_movement : Bool
  ai : Option AI
deriving Repr

/-- Modelled from the spec: the map query surface (game_map.py is not in the
core sources): bounds, walkable lookup and the player field-of-view mask. -/
structure GameMap where
  width : Int
  height : Int
  walkable : Int → Int → Bool
  visible : Int → Int → Bool

/-- Modelled from the spec: map bounds test (0 <= x < width, 0 <= y < height). -/
def inBounds (m : GameMap) (x y : Int) : Bool :=
  0 ≤ x && x < m.width && 0 ≤ y && y < m.height

/-- Log messages, abstracted from the concrete f-string text: each constructor
records which message was posted and about whom. -/
inductive Msg where
  | attackHit (attacker target : Nat) (damage : Int)
  | attackNoDamage (attacker target : Nat)
  | projectileHit (target : Nat) (damage : Int)
  | projectileBounce (target : Nat)
  | buffExpired (actor : Nat)
  | noLongerConfused (actor : Nat)
  | breaksFree (actor : Nat)
  | combatStarted
  | combatEnded
deriving Repr, DecidableEq

/-- Projectile variants (projectiles.py).  DirectionalProjectile shares the
straight-line physics of the base class (it only renders differently), so
`straight` covers both. -/
inductive PKind where
  | straight
  | shockwave
  | cross
  | diagonal
deriving Repr, DecidableEq

/-- A projectile (projectiles.py).  `hit_ids` is the hit-once set
`hit_actors`, represented by actor ids since Python compares actors by
identity. -/
structure Projectile where
  kind : PKind
  owner_id : Nat
  x : Int
  y : Int
  dx : Int
  dy : Int
  range : Int
  damage : Int
  can_hit_self : Bool
  distance_travelled : Int
  expanding_radius : Int
  done : Bool
  hit_ids : List Nat
deriving Repr, DecidableEq

/-- Engine scheduler mode (engine.py GameState). -/
inductive GameState where
  | exploration
  | turn_based
deriving Repr, DecidableEq

/-- The engine-owned world state: map, live actor set (items never block and
are irrelevant to the verified claims, so the entity set is modelled by its
actors), player identity, message log, active projectiles and scheduler
fields. -/
structure World where
  gmap : GameMap
  actors : List Actor
  player_id : Nat
  log : List Msg
  active_projectiles : List Projectile
  game_state : GameState
  last_enemy_turn_time : Int
  enemy_turn_interval : Int

/-- Modelled from the spec: actor-at-cell lookup over the live actor set. -/
def getActorAt (w : World) (x y : Int) : Option Actor :=
  w.actors.find? (fun a => a.x == x && a.y == y)

/-- Modelled from the spec: blocking-entity-at-cell lookup. -/
def getBlockingEntityAt (w : World) (x y : Int) : Option Actor :=
  w.actors.find? (fun a => a.blocks_movement && a.x == x && a.y == y)

/-- Look an actor up by identity (Python holds direct object references;
ids play that role here). -/
def getActorById (w : World) (aid : Nat) : Option Actor :=
  w.actors.find? (fun a => a.id == aid)

/-- Apply an in-place mutation to the actor with the given identity. -/
def setActor (w : World) (aid : Nat) (f : Actor → Actor) : World :=
  { w with actors := w.actors.map (fun a => if a.id = aid then f a else a) }

/-- Append one message to the log (MessageLog.add_message preserves order). -/
def logMsg (w : World) (m : Msg) : World :=
  { w with log := w.log ++ [m] }

/-- Modelled from the spec: Fighter damage application subtracts the dealt
amount from current hp. -/
def takeDamage (w : World) (aid : Nat) (amount : Int) : World :=
  setActor w aid (fun a => { a with fighter := { a.fighter with hp := a.fighter.hp - amount } })

/-- Current hp of the actor with the given id (0 if absent). -/
def hpOf (w : World) (aid : Nat) : Int :=
  match getActorById w aid with
  | some a => a.fighter.hp
  | none => 0

/-- Current AI strategy of the actor with the given id (none if absent). -/
def aiOf (w : World) (aid : Nat) : Option AI :=
  match getActorById w aid with
  | some a => a.ai
  | none => none

/-- Impossible message raised by MovementAction (and hence by the movement
half of BumpAction). -/
def blockedMsg : String := "That way is blocked."

/-- Impossible message raised by MeleeAction when no actor stands at the
destination. -/
def nothingToAttackMsg : String := "Nothing to attack."

/-- Guard for a dangling actor reference; unreachable in the source, where an
Action holds the actor object itself. -/
def missingActorMsg : String := "missing actor"

/-- MovementAction.perform (actions.py:180-194): fail if the destination is
out of bounds, not walkable, or holds a blocking entity; otherwise translate
the actor by (dx,dy). -/
def performMovement (w : World) (eid : Nat) (dx dy : Int) : World × Option String :=
  match getActorById w eid with
  | none => (w, some missingActorMsg)
  | some e =>
    let dest_x := e.x + dx
    let dest_y := e.y + dy
    if ¬ inBounds w.gmap dest_x dest_y then (w, some blockedMsg)
    else if ¬ w.gmap.walkable dest_x dest_y then (w, some blockedMsg)
    else if (getBlockingEntityAt w dest_x dest_y).isSome then (w, some blockedMsg)
    else (setActor w eid (fun a => { a with x := a.x + dx, y := a.y + dy }), none)

/-- Modelled from the spec: Fighter.update_temporary_buffs (fighter.py is not
in the core sources).  Each timed buff's counter is decremented; expired buffs
are removed, their amount is subtracted from base power (the on_expire hook
installed by StrengthPotionConsumable) and an expiry message is logged. -/
def refreshBuffs (w : World) (eid : Nat) : World :=
  match getActorById w eid with
  | none => w
  | some e =>
    let stepped := e.fighter.buffs.map (fun b => { b with turns_left := b.turns_left - 1 })
    let expired := stepped.filter (fun b => b.turns_left ≤ 0)
    let remaining := stepped.filter (fun b => 0 < b.turns_left)
    let w := setActor w eid (fun a =>
      { a with fighter := { a.fighter with
          base_power := a.fighter.base_power - (expired.map (fun b => b.amount)).sum,
          buffs := remaining } })
    expired.foldl (fun acc _ => logMsg acc (Msg.buffExpired eid)) w

/-- MeleeAction.perform (actions.py:158-177): damage = attacker power minus
defender defense is computed first, then the attacker's timed buffs are
refreshed, then damage is applied only if strictly positive (else a no-damage
message). -/
def performMelee (w : World) (eid : Nat) (dx dy : Int) : World × Option String :=
  match getActorById w eid with
  | none => (w, some missingActorMsg)
  | some e =>
    match getActorAt w (e.x + dx) (e.y + dy) with
    | none => (w, some nothingToAttackMsg)
    | some target =>
      let damage := e.fighter.power - target.fighter.defense
      let w := refreshBuffs w eid
      if damage > 0 then
        let w := logMsg w (Msg.attackHit eid target.id damage)
        (setActor w target.id (fun a =>
          { a with fighter := { a.fighter with hp := a.fighter.hp - damage } }), none)
      else
        (logMsg w (Msg.attackNoDamage eid target.id), none)

/-- BumpAction.perform (actions.py:197-203): delegate to Melee when an actor
stands at the destination, else to Movement. -/
def performBump (w : World) (eid : Nat) (dx dy : Int) : World × Option String :=
  match getActorById w eid with
  | none => (w, some missingActorMsg)
  | some e =>
    if (getActorAt w (e.x + dx) (e.y + dy)).isSome then performMelee w eid dx dy
    else performMovement w eid dx dy

/-- Projectile.check_collision (projectiles.py:42-67): in bounds, actor at the
cell, not already hit, not the owner (unless self-hit is allowed): add the
actor to the hit-once set, deal max(0, damage - defense) if positive (logging
a hit) else log a bounce.  Returns the mutated world and projectile plus the
Boolean the source returns. -/
def checkCollision (w : World) (p : Projectile) (x y : Int) : World × Projectile × Bool :=
  if ¬ inBounds w.gmap x y then (w, p, false)
  else
    match getActorAt w x y with
    | none => (w, p, false)
    | some t =>
      if p.hit_ids.contains t.id then (w, p, false)
      else if t.id == p.owner_id && !p.can_hit_self then (w, p, false)
      else
        let p := { p with hit_ids := t.id :: p.hit_ids }
        let dealt := max 0 (p.damage - t.fighter.defense)
        if dealt > 0 then
          (takeDamage (logMsg w (Msg.projectileHit t.id dealt)) t.id dealt, p, true)
        else
          (logMsg w (Msg.projectileBounce t.id), p, true)

/-- Projectile.move (projectiles.py:69-86): advance by the velocity, bump the
distance counter, test collision when in bounds, terminate on a non-walkable
tile, on leaving the map, or on exhausting the range budget. -/
def projMove (w : World) (p : Projectile) : World × Projectile :=
  let p := { p with x := p.x + p.dx, y := p.y + p.dy,
                    distance_travelled := p.distance_travelled + 1 }
  if inBounds w.gmap p.x p.y then
    let r := checkCollision w p p.x p.y
    let w := r.1
    let p := r.2.1
    if ¬ w.gmap.walkable p.x p.y then (w, { p with done := true })
    else if p.distance_travelled ≥ p.range then (w, { p with done := true })
    else (w, p)
  else (w, { p with done := true })

/-- Position of the projectile's owner (the source reads self.actor.x/y; the
owner is present in every modelled scenario, the fallback is the projectile's
own position). -/
def ownerPos (w : World) (p : Projectile) : Int × Int :=
  match getActorById w p.owner_id with
  | some a => (a.x, a.y)
  | none => (p.x, p.y)

/-- The integers from lo to hi inclusive, in order (Python range(lo, hi+1)). -/
def intRange (lo hi : Int) : List Int :=
  (List.range (hi - lo + 1).toNat).map (fun (k : Nat) => lo + (k : Int))

/-- Run check_collision over a list of probe cells in order, threading the
world and the projectile (the body shared by the area-effect update loops). -/
def probeAll (w : World) (p : Projectile) (probes : List (Int × Int)) : World × Projectile :=
  probes.foldl (fun wp c =>
    let r := checkCollision wp.1 wp.2 c.1 c.2
    (r.1, r.2.1)) (w, p)

/-- The probe cells of ShockwaveProjectile.update at a given radius: the double
loop over dx, dy in [-r, r] keeping the cells with |dx| = r or |dy| = r (the
outer Chebyshev ring), offset from the owner's position. -/
def ringProbes (cx cy r : Int) : List (Int × Int) :=
  (intRange (-r) r).foldl (fun acc dx =>
    acc ++ ((intRange (-r) r).filterMap (fun dy =>
      if |dx| = r ∨ |dy| = r then some (cx + dx, cy + dy) else none))) []

/-- ShockwaveProjectile.update (projectiles.py:147-164): grow the radius,
terminate once it exceeds the range, otherwise probe the outer ring. -/
def shockwaveUpdate (w : World) (p : Projectile) : World × Projectile :=
  if p.done then (w, p)
  else
    let p := { p with expanding_radius := p.expanding_radius + 1 }
    if p.expanding_radius > p.range then (w, { p with done := true })
    else
      let c := ownerPos w p
      probeAll w p (ringProbes c.1 c.2 p.expanding_radius)

/-- The probe cells of CrossProjectile.update at a given reach: the full
horizontal arm then the full vertical arm. -/
def crossProbes (cx cy d : Int) : List (Int × Int) :=
  (intRange (-d) d).map (fun dx => (cx + dx, cy))
    ++ (intRange (-d) d).map (fun dy => (cx, cy + dy))

/-- CrossProjectile.update (projectiles.py:194-209). -/
def crossUpdate (w : World) (p : Projectile) : World × Projectile :=
  if p.done then (w, p)
  else
    let p := { p with distance_travelled := p.distance_travelled + 1 }
    if p.distance_travelled > p.range then (w, { p with done := true })
    else
      let c := ownerPos w p
      probeAll w p (crossProbes c.1 c.2 p.distance_travelled)

/-- The probe cells of DiagonalProjectile.update at a given reach: for each k
in [-d, d], the four diagonal offsets (k,k), (k,-k), (-k,k), (-k,-k). -/
def diagProbes (cx cy d : Int) : List (Int × Int) :=
  (intRange (-d) d).foldl (fun acc k =>
    acc ++ [(cx + k, cy + k), (cx + k, cy - k), (cx - k, cy + k), (cx - k, cy - k)]) []

/-- DiagonalProjectile.update (projectiles.py:241-257). -/
def diagUpdate (w : World) (p : Projectile) : World × Projectile :=
  if p.done then (w, p)
  else
    let p := { p with distance_travelled := p.distance_travelled + 1 }
    if p.distance_travelled > p.range then (w, { p with done := true })
    else
      let c := ownerPos w p
      probeAll w p (diagProbes c.1 c.2 p.distance_travelled)

/-- One simulation frame of a single projectile: Projectile.update dispatches
to the variant's update (the base class guards on the done flag and moves). -/
def projUpdate (w : World) (p : Projectile) : World × Projectile :=
  match p.kind with
  | PKind.straight => if p.done then (w, p) else projMove w p
  | PKind.shockwave => shockwaveUpdate w p
  | PKind.cross => crossUpdate w p
  | PKind.diagonal => diagUpdate w p

/-- Iterated frames of a single projectile's lifetime. -/
def projIter (w : World) (p : Projectile) : Nat → World × Projectile
  | 0 => (w, p)
  | n + 1 =>
    let r := projIter w p n
    projUpdate r.1 r.2

/-- Engine.update_projectiles (engine.py:51-56): update every active
projectile once, in insertion order, and purge those now done. -/
def updateProjectiles (w : World) : World :=
  let r := w.active_projectiles.foldl
    (fun (acc : World × List Projectile) p =>
      let up := projUpdate acc.1 p
      (up.1, if up.2.done then acc.2 else acc.2 ++ [up.2])) (w, [])
  { r.1 with active_projectiles := r.2 }

/-- The visibility scan of Engine.update_realtime (engine.py:107-113): walk
the live actors and return at the first non-player actor that has an AI
strategy and stands on a tile visible to the player. -/
def findVisibleHostile (w : World) : List Actor → Option Actor
  | [] => none
  | a :: rest =>
    if a.id != w.player_id && a.ai.isSome && w.gmap.visible a.x a.y then some a
    else findVisibleHostile w rest

/-- The TurnBased-to-Exploration edge of Engine.update_realtime
(engine.py:116-120), reached only when the scan found no visible hostile. -/
def exitCombatCheck (w : World) : World :=
  if w.game_state = GameState.turn_based then
    { w with game_state := GameState.exploration, log := w.log ++ [Msg.combatEnded] }
  else w

/-- The enemy-turn clock of Engine.update_realtime (engine.py:123-126): when
the interval has elapsed, run one AI pass and stamp the time.  The AI pass
(handle_enemy_turns) is a parameter: its internals depend on the external
tcod pathfinder, on random choices and on Python set iteration order, none of
which affect the scheduler claims, which are proved for every pass. -/
def enemyClockStep (enemyTurns : World → World) (current_time : Int) (w : World) : World :=
  if current_time - w.last_enemy_turn_time ≥ w.enemy_turn_interval then
    { enemyTurns w with last_enemy_turn_time := current_time }
  else w

/-- Engine.update_realtime (engine.py:99-128): scan for a visible hostile and
return early (switching to TurnBased on the edge) if one exists; otherwise
drop back to Exploration on the edge, fire the enemy-turn clock if due, and
advance the projectile simulation by one frame. -/
def updateRealtime (enemyTurns : World → World) (current_time : Int) (w : World) : World :=
  match findVisibleHostile w w.actors with
  | some _ =>
    if w.game_state = GameState.exploration then
      { w with game_state := GameState.turn_based, log := w.log ++ [Msg.combatStarted] }
    else w
  | none => updateProjectiles (enemyClockStep enemyTurns current_time (exitCombatCheck w))

/-- The pathfinding cost grid of BaseAI.get_path_to (components/ai.py:26-35):
walkable tiles cost 1, others 0, and every entity that blocks movement and
stands on a nonzero-cost tile adds 10 to its tile. -/
def costGrid (w : World) (x y : Int) : Int :=
  let base : Int := if w.gmap.walkable x y then 1 else 0
  w.actors.foldl (fun c e =>
    if e.blocks_movement && (e.x == x && e.y == y) && c != 0 then c + 10 else c) base

/-- BaseAI.get_path_to (components/ai.py:20-47): build the cost grid, hand it
to the pathfinder, and drop the starting point from the returned route.  The
pathfinder itself (tcod.path.SimpleGraph / Pathfinder) is an external library,
modelled from the spec as a parameter: it receives the cost grid and the root
and destination cells and returns the lowest-cost route as a list of cells
beginning with the root, returning the root alone when no path exists. -/
def get_path_to (pf : (Int → Int → Int) → Int × Int → Int × Int → List (Int × Int))
    (w : World) (eid : Nat) (dest : Int × Int) : List (Int × Int) :=
  match getActorById w eid with
  | none => []
  | some e => (pf (costGrid w) (e.x, e.y) dest).drop 1

/-- ConfusedEnemy.perform (components/ai.py:90-118) for the actor with the
given id, whose current strategy is `confused previous turns_remaining`.  At
zero turns the saved strategy is restored with a message; otherwise the
counter is decremented (a mutation that survives a failing Bump, as in
Python) and a Bump is executed in the externally chosen random direction. -/
def confusedPerform (w : World) (eid : Nat) (previous : Option AI)
    (turns_remaining : Int) (dir : Int × Int) : World × Option String :=
  if turns_remaining ≤ 0 then
    (setActor (logMsg w (Msg.noLongerConfused eid)) eid (fun a => { a with ai := previous }), none)
  else
    let w := setActor w eid (fun a =>
      { a with ai := some (AI.confused previous (turns_remaining - 1)) })
    performBump w eid dir.1 dir.2

/-- One decision tick of an actor while its AI strategy is the Confused
wrapper; once the wrapper has been replaced, ConfusedEnemy.perform no longer
runs for this actor, so the tick is a no-op. -/
def confusedTick (w : World) (eid : Nat) (dir : Int × Int) : World × Option String :=
  match getActorById w eid with
  | none => (w, some missingActorMsg)
  | some e =>
    match e.ai with
    | some (AI.confused prev n) => confusedPerform w eid prev n dir
    | _ => (w, none)

/-- Iterated confused decision ticks, one externally chosen random direction
per tick. -/
def confusedTicks (w : World) (eid : Nat) : List (Int × Int) → World
  | [] => w
  | d :: ds => confusedTicks (confusedTick w eid d).1 eid ds

/-- The buff list of the actor with the given id. -/
def buffsOf (w : World) (aid : Nat) : Option (List Buff) :=
  (getActorById w aid).map (fun a => a.fighter.buffs)

/-- The base power of the actor with the given id. -/
def basePowerOf (w : World) (aid : Nat) : Option Int :=
  (getActorById w aid).map (fun a => a.fighter.base_power)

/-- The Melee semantics the spec describes, for refinement comparison only:
identical to performMelee except that the attacker's timed-buff refresh is
applied before the damage value is computed, so the damage reads the
refreshed power. -/
def performMeleeSpecOrdered (w : World) (eid : Nat) (dx dy : Int) : World × Option String :=
  match getActorById w eid with
  | none => (w, some missingActorMsg)
  | some e =>
    match getActorAt w (e.x + dx) (e.y + dy) with
    | none => (w, some nothingToAttackMsg)
    | some target =>
      let w := refreshBuffs w eid
      match getActorById w eid with
      | none => (w, some missingActorMsg)
      | some e2 =>
        let damage := e2.fighter.power - target.fighter.defense
        if damage > 0 then
          let w := logMsg w (Msg.attackHit eid target.id damage)
          (setActor w target.id (fun a =>
            { a with fighter := { a.fighter with hp := a.fighter.hp - damage } }), none)
        else
          (logMsg w (Msg.attackNoDamage eid target.id), none)

/-! ### Concrete scenario data (used to instantiate and to refute claims) -/

/-- A fully walkable, fully visible test map. -/
def openMap (width height : Int) : GameMap :=
  { width := width, height := height, walkable := fun _ _ => true, visible := fun _ _ => true }

/-- A fighter with the given stats and no timed buffs unless supplied. -/
def mkFighter (hp pow dfn : Int) (bs : List Buff) : Fighter :=
  { hp := hp, max_hp := hp, base_power := pow, base_defense := dfn, buffs := bs }

/-- A blocking actor with no AI. -/
def mkActor (aid : Nat) (x y : Int) (f : Fighter) : Actor :=
  { id := aid, x := x, y := y, fighter := f, blocks_movement := true, ai := none }

/-- A world over the given map and actors, player id 0, quiet scheduler. -/
def mkWorld (m : GameMap) (as : List Actor) : World :=
  { gmap := m, actors := as, player_id := 0, log := [], active_projectiles := []
  , game_state := GameState.exploration, last_enemy_turn_time := 0, enemy_turn_interval := 1 }

/-- C2/C7 scenario: a straight projectile thrown by actor 0 at (0,0) along the
positive x axis over an open 10 by 10 map, with a victim at (2,0). -/
def c2World : World :=
  mkWorld (openMap 10 10)
    [ mkActor 0 0 0 (mkFighter 10 6 0 []), mkActor 1 2 0 (mkFighter 10 2 0 []) ]

/-- The straight projectile of the C2 scenario: range 5, damage 3. -/
def c2Proj : Projectile :=
  { kind := PKind.straight, owner_id := 0, x := 0, y := 0, dx := 1, dy := 0, range := 5
  , damage := 3, can_hit_self := false, distance_travelled := 0, expanding_radius := 0
  , done := false, hit_ids := [] }

/-- C7 refutation scenario: a straight projectile with range 2 and unit
velocity over an open map with no obstruction. -/
def c7World : World := mkWorld (openMap 10 10) []

/-- The projectile of the C7 refutation scenario. -/
def c7Proj : Projectile :=
  { kind := PKind.straight, owner_id := 0, x := 0, y := 0, dx := 1, dy := 0, range := 2
  , damage := 0, can_hit_self := false, distance_travelled := 0, expanding_radius := 0
  , done := false, hit_ids := [] }

/-- C1 witness scenario: a lone blocking actor at (1,1) on an open 5 by 5 map. -/
def c1Actor : Actor := mkActor 0 1 1 (mkFighter 10 3 0 [])

/-- The world of the C1 witness scenario. -/
def c1World : World := mkWorld (openMap 5 5) [c1Actor]

/-- C3 scenario: attacker id 0 has base power 8 that includes a +3 strength
buff with one turn left; the defender id 1 has defense 6.  With the source
order (damage before refresh) the attack deals 8 - 6 = 2 damage; with the
spec order (refresh first) the refreshed power 5 deals no damage. -/
def c3World : World :=
  mkWorld (openMap 5 5)
    [ mkActor 0 0 0 (mkFighter 10 8 0 [{ amount := 3, turns_left := 1 }])
    , mkActor 1 1 0 (mkFighter 10 2 6 []) ]

/-- C4 scenario: actor id 7 is confused for 1 turn over a saved blacksmith
strategy. -/
def c4World : World :=
  mkWorld (openMap 20 20)
    [ { id := 7, x := 5, y := 5, fighter := mkFighter 10 3 0 [], blocks_movement := true
      , ai := some (AI.confused (some AI.blacksmith) 1) } ]

/-- C5/C6 scenario: a hostile actor with an AI strategy stands visible while
one not-yet-done projectile is in flight. -/
def c5Proj : Projectile :=
  { kind := PKind.straight, owner_id := 0, x := 3, y := 3, dx := 1, dy := 0, range := 5
  , damage := 0, can_hit_self := false, distance_travelled := 0, expanding_radius := 0
  , done := false, hit_ids := [] }

/-- The world of the C5 counterexample: the hostile id 1 is visible to the
player id 0, and c5Proj is active. -/
def c5World : World :=
  { gmap := openMap 10 10
  , actors := [ mkActor 0 0 0 (mkFighter 10 3 0 [])
              , { id := 1, x := 1, y := 0, fighter := mkFighter 10 2 1 [], blocks_movement := true
                , ai := some (AI.hostile []) } ]
  , player_id := 0, log := [], active_projectiles := [c5Proj]
  , game_state := GameState.exploration, last_enemy_turn_time := 0, enemy_turn_interval := 1 }

/-- The C5 witness world: same as c5World but nothing is visible, so the
scan finds no hostile and the projectile advances. -/
def c5bWorld : World :=
  { c5World with gmap := { openMap 10 10 with visible := fun _ _ => false } }

/-- C6 witness world: identical shape to the C5 counterexample world (a
visible hostile while in Exploration). -/
def c6World : World :=
  { gmap := openMap 10 10
  , actors := [ mkActor 0 0 0 (mkFighter 10 3 0 [])
              , { id := 1, x := 2, y := 0, fighter := mkFighter 10 2 1 [], blocks_movement := true
                , ai := some (AI.hostile []) } ]
  , player_id := 0, log := [], active_projectiles := []
  , game_state := GameState.exploration, last_enemy_turn_time := 0, enemy_turn_interval := 1 }

/-- C8 scenario: shockwave owner id 0 at (10,10) on an open 21 by 21 map and
a victim id 1 at the given cell with hp 30 and defense 0. -/
def c8World (ax ay : Int) : World :=
  mkWorld (openMap 21 21)
    [ mkActor 0 10 10 (mkFighter 30 6 0 []), mkActor 1 ax ay (mkFighter 30 2 0 []) ]

/-- The expanding-ring projectile of the C8 scenario: range 4, damage 6,
spawned at the owner's position (10,10). -/
def c8Proj : Projectile :=
  { kind := PKind.shockwave, owner_id := 0, x := 10, y := 10, dx := 0, dy := 0, range := 4
  , damage := 6, can_hit_self := false, distance_travelled := 0, expanding_radius := 0
  , done := false, hit_ids := [] }

/-- C9 counterexample world: the pathing actor id 0 itself stands on the
walkable tile (1,1) and blocks movement. -/
def c9World : World := mkWorld (openMap 3 3) [mkActor 0 1 1 (mkFighter 10 3 0 [])]

/-- C10 witness world: actor id 0 bumps into actor id 1 on the adjacent tile. -/
def c10World : World :=
  mkWorld (openMap 5 5) [ mkActor 0 1 1 (mkFighter 10 5 0 []), mkActor 1 2 1 (mkFighter 10 2 1 []) ]

/-! ### Helper lemmas: actor lookup and mutation -/

theorem find?_id_map (l : List Actor) (aid : Nat) (f : Actor → Actor)
    (hid : ∀ a, (f a).id = a.id) :
    (l.map (fun a => if a.id = aid then f a else a)).find? (fun a => a.id == aid)
      = (l.find? (fun a => a.id == aid)).map (fun e => if e.id = aid then f e else e) := by
  induction l with
  | nil => rfl
  | cons a l ih =>
    by_cases h : a.id = aid
    · simp [List.find?, h, hid a]
    · have hb : (a.id == aid) = false := by simp [h]
      simp [List.find?, h, hb, ih]

theorem find?_id_map_ne (l : List Actor) (aid j : Nat) (hj : j ≠ aid) (f : Actor → Actor)
    (hid : ∀ a, (f a).id = a.id) :
    (l.map (fun a => if a.id = aid then f a else a)).find? (fun a => a.id == j)
      = l.find? (fun a => a.id == j) := by
  induction l with
  | nil => rfl
  | cons a l ih =>
    by_cases h : a.id = aid
    · have h1 : ((f a).id == j) = false := by
        simp [hid a, h]
        omega
      have h2 : (a.id == j) = false := by
        simp [h]
        omega
      have h5 : (aid == j) = false := by
        simp
        omega
      simp [List.find?, h, h1, h2, h5, ih]
    · simp only [List.map_cons, if_neg h]
      by_cases h3 : a.id = j
      · simp [List.find?, h3]
      · have h4 : (a.id == j) = false := by simp [h3]
        simp [List.find?, h4, ih]

theorem getActorById_setActor_self (w : World) (aid : Nat) (f : Actor → Actor)
    (hid : ∀ a, (f a).id = a.id) (e : Actor) (he : getActorById w aid = some e) :
    getActorById (setActor w aid f) aid = some (f e) := by
  unfold getActorById setActor at *
  simp only [find?_id_map _ _ _ hid, he, Option.map_some]
  have hpred := List.find?_some he
  have : e.id = aid := by simpa using hpred
  simp [this]

theorem getActorById_setActor_none (w : World) (aid : Nat) (f : Actor → Actor)
    (hid : ∀ a, (f a).id = a.id) (he : getActorById w aid = none) :
    getActorById (setActor w aid f) aid = none := by
  unfold getActorById setActor at *
  simp [find?_id_map _ _ _ hid, he]

theorem getActorById_setActor_other (w : World) (aid j : Nat) (hj : j ≠ aid)
    (f : Actor → Actor) (hid : ∀ a, (f a).id = a.id) :
    getActorById (setActor w aid f) j = getActorById w j := by
  unfold getActorById setActor
  simp [find?_id_map_ne _ _ _ hj _ hid]

theorem hpOf_logMsg (w : World) (m : Msg) (aid : Nat) : hpOf (logMsg w m) aid = hpOf w aid := rfl

theorem aiOf_logMsg (w : World) (m : Msg) (aid : Nat) : aiOf (logMsg w m) aid = aiOf w aid := rfl

theorem hpOf_takeDamage_other (w : World) (tid : Nat) (d : Int) (aid : Nat) (h : aid ≠ tid) :
    hpOf (takeDamage w tid d) aid = hpOf w aid := by
  unfold hpOf takeDamage
  rw [getActorById_setActor_other w tid aid h
    (fun a => { a with fighter := { a.fighter with hp := a.fighter.hp - d } }) (fun a => rfl)]

/-! ### Helper lemmas: check_collision invariants -/

theorem checkCollision_world_misc (w : World) (p : Projectile) (x y : Int) :
    (checkCollision w p x y).1.gmap = w.gmap
      ∧ (checkCollision w p x y).1.game_state = w.game_state
      ∧ (checkCollision w p x y).1.active_projectiles = w.active_projectiles
      ∧ (checkCollision w p x y).1.player_id = w.player_id
      ∧ (checkCollision w p x y).1.last_enemy_turn_time = w.last_enemy_turn_time
      ∧ (checkCollision w p x y).1.enemy_turn_interval = w.enemy_turn_interval := by
  unfold checkCollision
  split
  · simp
  · split
    · simp
    · split
      · simp
      · split
        · simp
        · dsimp only
          split <;> simp [takeDamage, setActor, logMsg]

theorem checkCollision_log_append (w : World) (p : Projectile) (x y : Int) :
    ∃ ext, (checkCollision w p x y).1.log = w.log ++ ext := by
  unfold checkCollision
  split
  · exact ⟨[], by simp⟩
  · split
    · exact ⟨[], by simp⟩
    · split
      · exact ⟨[], by simp⟩
      · split
        · exact ⟨[], by simp⟩
        · dsimp only
          split
          · exact ⟨_, rfl⟩
          · exact ⟨_, rfl⟩

theorem checkCollision_proj_fields (w : World) (p : Projectile) (x y : Int) :
    (checkCollision w p x y).2.1.kind = p.kind
      ∧ (checkCollision w p x y).2.1.owner_id = p.owner_id
      ∧ (checkCollision w p x y).2.1.x = p.x
      ∧ (checkCollision w p x y).2.1.y = p.y
      ∧ (checkCollision w p x y).2.1.dx = p.dx
      ∧ (checkCollision w p x y).2.1.dy = p.dy
      ∧ (checkCollision w p x y).2.1.range = p.range
      ∧ (checkCollision w p x y).2.1.damage = p.damage
      ∧ (checkCollision w p x y).2.1.can_hit_self = p.can_hit_self
      ∧ (checkCollision w p x y).2.1.distance_travelled = p.distance_travelled
      ∧ (checkCollision w p x y).2.1.expanding_radius = p.expanding_radius
      ∧ (checkCollision w p x y).2.1.done = p.done := by
  unfold checkCollision
  split
  · simp
  · split
    · simp
    · split
      · simp
      · split
        · simp
        · dsimp only
          split <;> simp

theorem checkCollision_hit_mono (w : World) (p : Projectile) (x y : Int) (aid : Nat)
    (h : aid ∈ p.hit_ids) : aid ∈ (checkCollision w p x y).2.1.hit_ids := by
  unfold checkCollision
  split
  · exact h
  · split
    · exact h
    · split
      · exact h
      · split
        · exact h
        · dsimp only
          split <;> exact List.mem_cons_of_mem _ h

theorem checkCollision_hp_of_mem (w : World) (p : Projectile) (x y : Int) (aid : Nat)
    (h : aid ∈ p.hit_ids) : hpOf (checkCollision w p x y).1 aid = hpOf w aid := by
  unfold checkCollision
  split
  · rfl
  · split
    · rfl
    · rename_i t ht
      split
      · rfl
      · split
        · rfl
        · rename_i hmem hself
          have htne : t.id ≠ aid := by
            intro hEq
            rw [hEq] at hmem
            simp [h] at hmem
          dsimp only
          split
          · rw [hpOf_takeDamage_other _ _ _ _ (Ne.symm htne), hpOf_logMsg]
          · rw [hpOf_logMsg]

theorem checkCollision_hp_change (w : World) (p : Projectile) (x y : Int) (aid : Nat)
    (h : hpOf (checkCollision w p x y).1 aid ≠ hpOf w aid) :
    aid ∉ p.hit_ids ∧ aid ∈ (checkCollision w p x y).2.1.hit_ids := by
  by_cases hm : aid ∈ p.hit_ids
  · exact absurd (checkCollision_hp_of_mem w p x y aid hm) h
  · refine ⟨hm, ?_⟩
    revert h
    unfold checkCollision
    split
    · intro h; exact absurd rfl h
    · split
      · intro h; exact absurd rfl h
      · rename_i t ht
        split
        · intro h; exact absurd rfl h
        · split
          · intro h; exact absurd rfl h
          · dsimp only
            split
            · intro h
              by_cases hta : t.id = aid
              · simp [hta]
              · rw [hpOf_takeDamage_other _ _ _ _ (fun hEq => hta hEq.symm), hpOf_logMsg] at h
                exact absurd rfl h
            · intro h
              rw [hpOf_logMsg] at h
              exact absurd rfl h

theorem checkCollision_owner_hp (w : World) (p : Projectile) (x y : Int)
    (hc : p.can_hit_self = false) :
    hpOf (checkCollision w p x y).1 p.owner_id = hpOf w p.owner_id := by
  unfold checkCollision
  split
  · rfl
  · split
    · rfl
    · rename_i t ht
      split
      · rfl
      · split
        · rfl
        · rename_i hmem hself
          have htne : t.id ≠ p.owner_id := by
            intro hEq
            rw [hc] at hself
            simp [hEq] at hself
          dsimp only
          split
          · rw [hpOf_takeDamage_other _ _ _ _ (Ne.symm htne), hpOf_logMsg]
          · rw [hpOf_logMsg]

/-! ### Helper lemmas: probe loops -/

theorem probeAll_nil (w : World) (p : Projectile) : probeAll w p [] = (w, p) := rfl

theorem probeAll_cons (w : World) (p : Projectile) (c : Int × Int) (L : List (Int × Int)) :
    probeAll w p (c :: L)
      = probeAll (checkCollision w p c.1 c.2).1 (checkCollision w p c.1 c.2).2.1 L := rfl

theorem probeAll_world_misc (L : List (Int × Int)) :
    ∀ (w : World) (p : Projectile),
    (probeAll w p L).1.gmap = w.gmap
      ∧ (probeAll w p L).1.game_state = w.game_state
      ∧ (probeAll w p L).1.active_projectiles = w.active_projectiles
      ∧ (probeAll w p L).1.player_id = w.player_id
      ∧ (probeAll w p L).1.last_enemy_turn_time = w.last_enemy_turn_time
      ∧ (probeAll w p L).1.enemy_turn_interval = w.enemy_turn_interval := by
  induction L with
  | nil => intro w p; exact ⟨rfl, rfl, rfl, rfl, rfl, rfl⟩
  | cons c L ih =>
    intro w p
    rw [probeAll_cons]
    have h1 := checkCollision_world_misc w p c.1 c.2
    have h2 := ih (checkCollision w p c.1 c.2).1 (checkCollision w p c.1 c.2).2.1
    exact ⟨h2.1.trans h1.1, h2.2.1.trans h1.2.1, h2.2.2.1.trans h1.2.2.1,
      h2.2.2.2.1.trans h1.2.2.2.1, h2.2.2.2.2.1.trans h1.2.2.2.2.1,
      h2.2.2.2.2.2.trans h1.2.2.2.2.2⟩

theorem probeAll_log_append (L : List (Int × Int)) :
    ∀ (w : World) (p : Projectile), ∃ ext, (probeAll w p L).1.log = w.log ++ ext := by
  induction L with
  | nil => intro w p; exact ⟨[], by simp [probeAll_nil]⟩
  | cons c L ih =>
    intro w p
    rw [probeAll_cons]
    obtain ⟨e1, he1⟩ := checkCollision_log_append w p c.1 c.2
    obtain ⟨e2, he2⟩ := ih (checkCollision w p c.1 c.2).1 (checkCollision w p c.1 c.2).2.1
    exact ⟨e1 ++ e2, by rw [he2, he1, List.append_assoc]⟩

theorem probeAll_proj_fields (L : List (Int × Int)) :
    ∀ (w : World) (p : Projectile),
    (probeAll w p L).2.kind = p.kind
      ∧ (probeAll w p L).2.owner_id = p.owner_id
      ∧ (probeAll w p L).2.x = p.x
      ∧ (probeAll w p L).2.y = p.y
      ∧ (probeAll w p L).2.dx = p.dx
      ∧ (probeAll w p L).2.dy = p.dy
      ∧ (probeAll w p L).2.range = p.range
      ∧ (probeAll w p L).2.damage = p.damage
      ∧ (probeAll w p L).2.can_hit_self = p.can_hit_self
      ∧ (probeAll w p L).2.distance_travelled = p.distance_travelled
      ∧ (probeAll w p L).2.expanding_radius = p.expanding_radius
      ∧ (probeAll w p L).2.done = p.done := by
  induction L with
  | nil => intro w p; exact ⟨rfl, rfl, rfl, rfl, rfl, rfl, rfl, rfl, rfl, rfl, rfl, rfl⟩
  | cons c L ih =>
    intro w p
    rw [probeAll_cons]
    have h1 := checkCollision_proj_fields w p c.1 c.2
    have h2 := ih (checkCollision w p c.1 c.2).1 (checkCollision w p c.1 c.2).2.1
    exact ⟨h2.1.trans h1.1, h2.2.1.trans h1.2.1, h2.2.2.1.trans h1.2.2.1,
      h2.2.2.2.1.trans h1.2.2.2.1, h2.2.2.2.2.1.trans h1.2.2.2.2.1,
      h2.2.2.2.2.2.1.trans h1.2.2.2.2.2.1, h2.2.2.2.2.2.2.1.trans h1.2.2.2.2.2.2.1,
      h2.2.2.2.2.2.2.2.1.trans h1.2.2.2.2.2.2.2.1,
      h2.2.2.2.2.2.2.2.2.1.trans h1.2.2.2.2.2.2.2.2.1,
      h2.2.2.2.2.2.2.2.2.2.1.trans h1.2.2.2.2.2.2.2.2.2.1,
      h2.2.2.2.2.2.2.2.2.2.2.1.trans h1.2.2.2.2.2.2.2.2.2.2.1,
      h2.2.2.2.2.2.2.2.2.2.2.2.trans h1.2.2.2.2.2.2.2.2.2.2.2⟩

theorem probeAll_hit_mono (L : List (Int × Int)) :
    ∀ (w : World) (p : Projectile) (aid : Nat), aid ∈ p.hit_ids →
      aid ∈ (probeAll w p L).2.hit_ids := by
  induction L with
  | nil => intro w p aid h; exact h
  | cons c L ih =>
    intro w p aid h
    rw [probeAll_cons]
    exact ih _ _ aid (checkCollision_hit_mono w p c.1 c.2 aid h)

theorem probeAll_hp_of_mem (L : List (Int × Int)) :
    ∀ (w : World) (p : Projectile) (aid : Nat), aid ∈ p.hit_ids →
      hpOf (probeAll w p L).1 aid = hpOf w aid := by
  induction L with
  | nil => intro w p aid h; rfl
  | cons c L ih =>
    intro w p aid h
    rw [probeAll_cons]
    rw [ih _ _ aid (checkCollision_hit_mono w p c.1 c.2 aid h)]
    exact checkCollision_hp_of_mem w p c.1 c.2 aid h

theorem probeAll_hp_change (L : List (Int × Int)) :
    ∀ (w : World) (p : Projectile) (aid : Nat),
      hpOf (probeAll w p L).1 aid ≠ hpOf w aid →
      aid ∉ p.hit_ids ∧ aid ∈ (probeAll w p L).2.hit_ids := by
  induction L with
  | nil => intro w p aid h; exact absurd rfl h
  | cons c L ih =>
    intro w p aid h
    rw [probeAll_cons] at h ⊢
    by_cases hm : aid ∈ p.hit_ids
    · have hstable : hpOf (probeAll (checkCollision w p c.1 c.2).1 (checkCollision w p c.1 c.2).2.1 L).1 aid = hpOf w aid := by
        rw [probeAll_hp_of_mem L _ _ aid (checkCollision_hit_mono w p c.1 c.2 aid hm)]
        exact checkCollision_hp_of_mem w p c.1 c.2 aid hm
      exact absurd hstable h
    · refine ⟨hm, ?_⟩
      by_cases hc1 : hpOf (checkCollision w p c.1 c.2).1 aid = hpOf w aid
      · have : hpOf (probeAll (checkCollision w p c.1 c.2).1 (checkCollision w p c.1 c.2).2.1 L).1 aid
            ≠ hpOf (checkCollision w p c.1 c.2).1 aid := by
          rw [hc1]; exact h
        exact (ih _ _ aid this).2
      · exact probeAll_hit_mono L _ _ aid (checkCollision_hp_change w p c.1 c.2 aid hc1).2

theorem probeAll_owner_hp (L : List (Int × Int)) :
    ∀ (w : World) (p : Projectile), p.can_hit_self = false →
      hpOf (probeAll w p L).1 p.owner_id = hpOf w p.owner_id := by
  induction L with
  | nil => intro w p _; rfl
  | cons c L ih =>
    intro w p hc
    rw [probeAll_cons]
    have hf := checkCollision_proj_fields w p c.1 c.2
    have hrec := ih (checkCollision w p c.1 c.2).1 (checkCollision w p c.1 c.2).2.1
      (hf.2.2.2.2.2.2.2.2.1.trans hc)
    rw [hf.2.1] at hrec
    rw [hrec]
    exact checkCollision_owner_hp w p c.1 c.2 hc

/-! ### Helper lemmas: single-projectile updates -/

theorem projMove_world_misc (w : World) (p : Projectile) :
    (projMove w p).1.gmap = w.gmap
      ∧ (projMove w p).1.game_state = w.game_state
      ∧ (projMove w p).1.active_projectiles = w.active_projectiles
      ∧ (projMove w p).1.player_id = w.player_id
      ∧ (projMove w p).1.last_enemy_turn_time = w.last_enemy_turn_time
      ∧ (projMove w p).1.enemy_turn_interval = w.enemy_turn_interval := by
  unfold projMove
  dsimp only
  split
  · split
    · exact checkCollision_world_misc _ _ _ _
    · split
      · exact checkCollision_world_misc _ _ _ _
      · exact checkCollision_world_misc _ _ _ _
  · exact ⟨rfl, rfl, rfl, rfl, rfl, rfl⟩

theorem projMove_log_append (w : World) (p : Projectile) :
    ∃ ext, (projMove w p).1.log = w.log ++ ext := by
  unfold projMove
  dsimp only
  split
  · split
    · exact checkCollision_log_append _ _ _ _
    · split
      · exact checkCollision_log_append _ _ _ _
      · exact checkCollision_log_append _ _ _ _
  · exact ⟨[], by simp⟩

theorem projMove_hit_mono (w : World) (p : Projectile) (aid : Nat) (h : aid ∈ p.hit_ids) :
    aid ∈ (projMove w p).2.hit_ids := by
  unfold projMove
  dsimp only
  split
  · split
    · exact checkCollision_hit_mono _ _ _ _ aid h
    · split
      · exact checkCollision_hit_mono _ _ _ _ aid h
      · exact checkCollision_hit_mono _ _ _ _ aid h
  · exact h

theorem projMove_hp_of_mem (w : World) (p : Projectile) (aid : Nat) (h : aid ∈ p.hit_ids) :
    hpOf (projMove w p).1 aid = hpOf w aid := by
  unfold projMove
  dsimp only
  split
  · split
    · exact checkCollision_hp_of_mem _ _ _ _ aid h
    · split
      · exact checkCollision_hp_of_mem _ _ _ _ aid h
      · exact checkCollision_hp_of_mem _ _ _ _ aid h
  · rfl

theorem projMove_hp_change (w : World) (p : Projectile) (aid : Nat)
    (h : hpOf (projMove w p).1 aid ≠ hpOf w aid) :
    aid ∉ p.hit_ids ∧ aid ∈ (projMove w p).2.hit_ids := by
  revert h
  unfold projMove
  dsimp only
  split
  · split
    · exact fun h => checkCollision_hp_change _ _ _ _ aid h
    · split
      · exact fun h => checkCollision_hp_change _ _ _ _ aid h
      · exact fun h => checkCollision_hp_change _ _ _ _ aid h
  · exact fun h => absurd rfl h

theorem projMove_owner_hp (w : World) (p : Projectile) (hc : p.can_hit_self = false) :
    hpOf (projMove w p).1 p.owner_id = hpOf w p.owner_id := by
  unfold projMove
  dsimp only
  split
  · split
    · exact checkCollision_owner_hp _ _ _ _ hc
    · split
      · exact checkCollision_owner_hp _ _ _ _ hc
      · exact checkCollision_owner_hp _ _ _ _ hc
  · rfl

theorem projUpdate_world_misc (w : World) (p : Projectile) :
    (projUpdate w p).1.gmap = w.gmap
      ∧ (projUpdate w p).1.game_state = w.game_state
      ∧ (projUpdate w p).1.active_projectiles = w.active_projectiles
      ∧ (projUpdate w p).1.player_id = w.player_id
      ∧ (projUpdate w p).1.last_enemy_turn_time = w.last_enemy_turn_time
      ∧ (projUpdate w p).1.enemy_turn_interval = w.enemy_turn_interval := by
  unfold projUpdate
  cases hk : p.kind
  case straight =>
    dsimp only
    split
    · exact ⟨rfl, rfl, rfl, rfl, rfl, rfl⟩
    · exact projMove_world_misc w p
  case shockwave =>
    dsimp only
    unfold shockwaveUpdate
    split
    · exact ⟨rfl, rfl, rfl, rfl, rfl, rfl⟩
    · dsimp only
      split
      · exact ⟨rfl, rfl, rfl, rfl, rfl, rfl⟩
      · exact probeAll_world_misc _ _ _
  case cross =>
    dsimp only
    unfold crossUpdate
    split
    · exact ⟨rfl, rfl, rfl, rfl, rfl, rfl⟩
    · dsimp only
      split
      · exact ⟨rfl, rfl, rfl, rfl, rfl, rfl⟩
      · exact probeAll_world_misc _ _ _
  case diagonal =>
    dsimp only
    unfold diagUpdate
    split
    · exact ⟨rfl, rfl, rfl, rfl, rfl, rfl⟩
    · dsimp only
      split
      · exact ⟨rfl, rfl, rfl, rfl, rfl, rfl⟩
      · exact probeAll_world_misc _ _ _

theorem projUpdate_log_append (w : World) (p : Projectile) :
    ∃ ext, (projUpdate w p).1.log = w.log ++ ext := by
  unfold projUpdate
  cases hk : p.kind
  case straight =>
    dsimp only
    split
    · exact ⟨[], by simp⟩
    · exact projMove_log_append w p
  case shockwave =>
    dsimp only
    unfold shockwaveUpdate
    split
    · exact ⟨[], by simp⟩
    · dsimp only
      split
      · exact ⟨[], by simp⟩
      · exact probeAll_log_append _ _ _
  case cross =>
    dsimp only
    unfold crossUpdate
    split
    · exact ⟨[], by simp⟩
    · dsimp only
      split
      · exact ⟨[], by simp⟩
      · exact probeAll_log_append _ _ _
  case diagonal =>
    dsimp only
    unfold diagUpdate
    split
    · exact ⟨[], by simp⟩
    · dsimp only
      split
      · exact ⟨[], by simp⟩
      · exact probeAll_log_append _ _ _

theorem projUpdate_hit_mono (w : World) (p : Projectile) (aid : Nat) (h : aid ∈ p.hit_ids) :
    aid ∈ (projUpdate w p).2.hit_ids := by
  unfold projUpdate
  cases hk : p.kind
  case straight =>
    dsimp only
    split
    · exact h
    · exact projMove_hit_mono w p aid h
  case shockwave =>
    dsimp only
    unfold shockwaveUpdate
    split
    · exact h
    · dsimp only
      split
      · exact h
      · exact probeAll_hit_mono _ _ _ aid h
  case cross =>
    dsimp only
    unfold crossUpdate
    split
    · exact h
    · dsimp only
      split
      · exact h
      · exact probeAll_hit_mono _ _ _ aid h
  case diagonal =>
    dsimp only
    unfold diagUpdate
    split
    · exact h
    · dsimp only
      split
      · exact h
      · exact probeAll_hit_mono _ _ _ aid h

theorem projUpdate_hp_of_mem (w : World) (p : Projectile) (aid : Nat) (h : aid ∈ p.hit_ids) :
    hpOf (projUpdate w p).1 aid = hpOf w aid := by
  unfold projUpdate
  cases hk : p.kind
  case straight =>
    dsimp only
    split
    · rfl
    · exact projMove_hp_of_mem w p aid h
  case shockwave =>
    dsimp only
    unfold shockwaveUpdate
    split
    · rfl
    · dsimp only
      split
      · rfl
      · exact probeAll_hp_of_mem _ _ _ aid h
  case cross =>
    dsimp only
    unfold crossUpdate
    split
    · rfl
    · dsimp only
      split
      · rfl
      · exact probeAll_hp_of_mem _ _ _ aid h
  case diagonal =>
    dsimp only
    unfold diagUpdate
    split
    · rfl
    · dsimp only
      split
      · rfl
      · exact probeAll_hp_of_mem _ _ _ aid h

theorem projUpdate_hp_change (w : World) (p : Projectile) (aid : Nat)
    (h : hpOf (projUpdate w p).1 aid ≠ hpOf w aid) :
    aid ∉ p.hit_ids ∧ aid ∈ (projUpdate w p).2.hit_ids := by
  revert h
  unfold projUpdate
  cases hk : p.kind
  case straight =>
    dsimp only
    split
    · exact fun h => absurd rfl h
    · exact fun h => projMove_hp_change w p aid h
  case shockwave =>
    dsimp only
    unfold shockwaveUpdate
    split
    · exact fun h => absurd rfl h
    · dsimp only
      split
      · exact fun h => absurd rfl h
      · exact fun h => probeAll_hp_change _ _ _ aid h
  case cross =>
    dsimp only
    unfold crossUpdate
    split
    · exact fun h => absurd rfl h
    · dsimp only
      split
      · exact fun h => absurd rfl h
      · exact fun h => probeAll_hp_change _ _ _ aid h
  case diagonal =>
    dsimp only
    unfold diagUpdate
    split
    · exact fun h => absurd rfl h
    · dsimp only
      split
      · exact fun h => absurd rfl h
      · exact fun h => probeAll_hp_change _ _ _ aid h

theorem projUpdate_owner_canhit (w : World) (p : Projectile) :
    (projUpdate w p).2.owner_id = p.owner_id ∧ (projUpdate w p).2.can_hit_self = p.can_hit_self := by
  unfold projUpdate
  cases hk : p.kind
  case straight =>
    dsimp only
    split
    · exact ⟨rfl, rfl⟩
    · unfold projMove
      dsimp only
      split
      · have hf := checkCollision_proj_fields w
          { p with x := p.x + p.dx, y := p.y + p.dy,
                   distance_travelled := p.distance_travelled + 1 }
          (p.x + p.dx) (p.y + p.dy)
        split
        · exact ⟨hf.2.1, hf.2.2.2.2.2.2.2.2.1⟩
        · split
          · exact ⟨hf.2.1, hf.2.2.2.2.2.2.2.2.1⟩
          · exact ⟨hf.2.1, hf.2.2.2.2.2.2.2.2.1⟩
      · exact ⟨rfl, rfl⟩
  case shockwave =>
    dsimp only
    unfold shockwaveUpdate
    split
    · exact ⟨rfl, rfl⟩
    · dsimp only
      split
      · exact ⟨rfl, rfl⟩
      · exact ⟨(probeAll_proj_fields _ _ _).2.1,
          (probeAll_proj_fields _ _ _).2.2.2.2.2.2.2.2.1⟩
  case cross =>
    dsimp only
    unfold crossUpdate
    split
    · exact ⟨rfl, rfl⟩
    · dsimp only
      split
      · exact ⟨rfl, rfl⟩
      · exact ⟨(probeAll_proj_fields _ _ _).2.1,
          (probeAll_proj_fields _ _ _).2.2.2.2.2.2.2.2.1⟩
  case diagonal =>
    dsimp only
    unfold diagUpdate
    split
    · exact ⟨rfl, rfl⟩
    · dsimp only
      split
      · exact ⟨rfl, rfl⟩
      · exact ⟨(probeAll_proj_fields _ _ _).2.1,
          (probeAll_proj_fields _ _ _).2.2.2.2.2.2.2.2.1⟩

theorem projUpdate_owner_hp (w : World) (p : Projectile) (hc : p.can_hit_self = false) :
    hpOf (projUpdate w p).1 p.owner_id = hpOf w p.owner_id := by
  unfold projUpdate
  cases hk : p.kind
  case straight =>
    dsimp only
    split
    · rfl
    · exact projMove_owner_hp w p hc
  case shockwave =>
    dsimp only
    unfold shockwaveUpdate
    split
    · rfl
    · dsimp only
      split
      · rfl
      · exact probeAll_owner_hp _ _ _ hc
  case cross =>
    dsimp only
    unfold crossUpdate
    split
    · rfl
    · dsimp only
      split
      · rfl
      · exact probeAll_owner_hp _ _ _ hc
  case diagonal =>
    dsimp only
    unfold diagUpdate
    split
    · rfl
    · dsimp only
      split
      · rfl
      · exact probeAll_owner_hp _ _ _ hc

/-! ### Helper lemmas: iterated projectile frames -/

theorem projIter_succ (w : World) (p : Projectile) (n : Nat) :
    projIter w p (n + 1) = projUpdate (projIter w p n).1 (projIter w p n).2 := rfl

theorem projIter_mem_le (w : World) (p : Projectile) (aid : Nat) (n : Nat)
    (h : aid ∈ (projIter w p n).2.hit_ids) :
    ∀ m, n ≤ m → aid ∈ (projIter w p m).2.hit_ids := by
  intro m
  induction m with
  | zero =>
    intro hm
    have : n = 0 := Nat.le_zero.mp hm
    rw [this] at h
    exact h
  | succ m ih =>
    intro hm
    rcases Nat.lt_or_ge m n with hlt | hge
    · have : n = m + 1 := by omega
      rw [this] at h
      exact h
    · rw [projIter_succ]
      exact projUpdate_hit_mono _ _ aid (ih hge)

theorem projIter_owner_canhit (w : World) (p : Projectile) :
    ∀ n, (projIter w p n).2.owner_id = p.owner_id
      ∧ (projIter w p n).2.can_hit_self = p.can_hit_self := by
  intro n
  induction n with
  | zero => exact ⟨rfl, rfl⟩
  | succ n ih =>
    rw [projIter_succ]
    have h := projUpdate_owner_canhit (projIter w p n).1 (projIter w p n).2
    exact ⟨h.1.trans ih.1, h.2.trans ih.2⟩

/-- The full state of an in-flight straight projectile after j frames:
position advanced j steps, j distance consumed, not yet done, physics fields
and the map unchanged. -/
def StraightFlightState (w : World) (p : Projectile) (j : Nat) : Prop :=
  (projIter w p j).2.kind = PKind.straight
    ∧ (projIter w p j).2.done = false
    ∧ (projIter w p j).2.x = p.x + (j : Int) * p.dx
    ∧ (projIter w p j).2.y = p.y + (j : Int) * p.dy
    ∧ (projIter w p j).2.distance_travelled = (j : Int)
    ∧ (projIter w p j).2.dx = p.dx
    ∧ (projIter w p j).2.dy = p.dy
    ∧ (projIter w p j).2.range = p.range
    ∧ (projIter w p j).1.gmap = w.gmap

theorem projMove_ok (w : World) (p : Projectile)
    (hin : inBounds w.gmap (p.x + p.dx) (p.y + p.dy) = true)
    (hwalk : w.gmap.walkable (p.x + p.dx) (p.y + p.dy) = true)
    (hrange : p.distance_travelled + 1 < p.range) :
    (projMove w p).2.kind = p.kind
      ∧ (projMove w p).2.done = p.done
      ∧ (projMove w p).2.x = p.x + p.dx
      ∧ (projMove w p).2.y = p.y + p.dy
      ∧ (projMove w p).2.distance_travelled = p.distance_travelled + 1
      ∧ (projMove w p).2.dx = p.dx
      ∧ (projMove w p).2.dy = p.dy
      ∧ (projMove w p).2.range = p.range
      ∧ (projMove w p).1.gmap = w.gmap := by
  obtain ⟨k, oid, x, y, dx, dy, rng, dmg, chs, dist, rad, dn, hits⟩ := p
  simp only at hin hwalk hrange
  unfold projMove
  dsimp only
  rw [if_pos hin]
  have hcw := checkCollision_world_misc w
    { kind := k, owner_id := oid, x := x + dx, y := y + dy, dx := dx, dy := dy, range := rng
    , damage := dmg, can_hit_self := chs, distance_travelled := dist + 1
    , expanding_radius := rad, done := dn, hit_ids := hits } (x + dx) (y + dy)
  have hcf := checkCollision_proj_fields w
    { kind := k, owner_id := oid, x := x + dx, y := y + dy, dx := dx, dy := dy, range := rng
    , damage := dmg, can_hit_self := chs, distance_travelled := dist + 1
    , expanding_radius := rad, done := dn, hit_ids := hits } (x + dx) (y + dy)
  rw [hcw.1, hcf.2.2.1, hcf.2.2.2.1, if_neg (by rw [hwalk]; simp)]
  rw [hcf.2.2.2.2.2.2.2.2.2.1, hcf.2.2.2.2.2.2.1]
  rw [if_neg (by simp only; omega)]
  exact ⟨hcf.1, hcf.2.2.2.2.2.2.2.2.2.2.2, hcf.2.2.1, hcf.2.2.2.1,
    hcf.2.2.2.2.2.2.2.2.2.1, hcf.2.2.2.2.1, hcf.2.2.2.2.2.1, hcf.2.2.2.2.2.2.1, hcw.1⟩

theorem projMove_stop (w : World) (p : Projectile)
    (hstop : inBounds w.gmap (p.x + p.dx) (p.y + p.dy) = false
      ∨ w.gmap.walkable (p.x + p.dx) (p.y + p.dy) = false
      ∨ p.distance_travelled + 1 ≥ p.range) :
    (projMove w p).2.done = true := by
  obtain ⟨k, oid, x, y, dx, dy, rng, dmg, chs, dist, rad, dn, hits⟩ := p
  simp only at hstop
  unfold projMove
  dsimp only
  by_cases hb : inBounds w.gmap (x + dx) (y + dy) = true
  · rw [if_pos hb]
    have hcw := checkCollision_world_misc w
      { kind := k, owner_id := oid, x := x + dx, y := y + dy, dx := dx, dy := dy, range := rng
      , damage := dmg, can_hit_self := chs, distance_travelled := dist + 1
      , expanding_radius := rad, done := dn, hit_ids := hits } (x + dx) (y + dy)
    have hcf := checkCollision_proj_fields w
      { kind := k, owner_id := oid, x := x + dx, y := y + dy, dx := dx, dy := dy, range := rng
      , damage := dmg, can_hit_self := chs, distance_travelled := dist + 1
      , expanding_radius := rad, done := dn, hit_ids := hits } (x + dx) (y + dy)
    rw [hcw.1, hcf.2.2.1, hcf.2.2.2.1]
    by_cases hw : w.gmap.walkable (x + dx) (y + dy) = true
    · rw [if_neg (by rw [hw]; simp)]
      rw [hcf.2.2.2.2.2.2.2.2.2.1, hcf.2.2.2.2.2.2.1]
      have hge : dist + 1 ≥ rng := by
        rcases hstop with h | h | h
        · rw [hb] at h; cases h
        · rw [hw] at h; cases h
        · exact h
      rw [if_pos (by simp only; omega)]
    · rw [if_pos (by simp only [Bool.not_eq_true]; simpa using hw)]
  · rw [if_neg hb]

theorem straight_flight_step (w : World) (p : Projectile) (j : Nat)
    (hP : StraightFlightState w p j)
    (hin : inBounds w.gmap (p.x + ((j : Int) + 1) * p.dx) (p.y + ((j : Int) + 1) * p.dy) = true)
    (hwalk : w.gmap.walkable (p.x + ((j : Int) + 1) * p.dx) (p.y + ((j : Int) + 1) * p.dy) = true)
    (hrange : ((j : Int) + 1) < p.range) :
    StraightFlightState w p (j + 1) := by
  obtain ⟨hk, hd, hx, hy, hdist, hdx, hdy, hr, hg⟩ := hP
  have hstep : projIter w p (j + 1) = projMove (projIter w p j).1 (projIter w p j).2 := by
    rw [projIter_succ]
    unfold projUpdate
    rw [hk]
    dsimp only
    rw [if_neg (by rw [hd]; exact Bool.false_ne_true)]
  have harg1 : (projIter w p j).2.x + (projIter w p j).2.dx = p.x + ((j : Int) + 1) * p.dx := by
    rw [hx, hdx]; ring
  have harg2 : (projIter w p j).2.y + (projIter w p j).2.dy = p.y + ((j : Int) + 1) * p.dy := by
    rw [hy, hdy]; ring
  have hmv := projMove_ok (projIter w p j).1 (projIter w p j).2
    (by rw [harg1, harg2, hg]; exact hin)
    (by rw [harg1, harg2, hg]; exact hwalk)
    (by rw [hdist, hr]; omega)
  unfold StraightFlightState
  rw [hstep]
  refine ⟨hmv.1.trans hk, hmv.2.1.trans hd, ?_, ?_, ?_, ?_, ?_, ?_, ?_⟩
  · rw [hmv.2.2.1, harg1]; push_cast; ring
  · rw [hmv.2.2.2.1, harg2]; push_cast; ring
  · rw [hmv.2.2.2.2.1, hdist]; push_cast; ring
  · rw [hmv.2.2.2.2.2.1, hdx]
  · rw [hmv.2.2.2.2.2.2.1, hdy]
  · rw [hmv.2.2.2.2.2.2.2.1, hr]
  · rw [hmv.2.2.2.2.2.2.2.2, hg]

theorem straight_flight_prefix (w : World) (p : Projectile) (k : Nat)
    (hkind : p.kind = PKind.straight) (hdone : p.done = false)
    (hdist : p.distance_travelled = 0) (hkR : (k : Int) ≤ p.range)
    (hgood : ∀ i : Nat, 1 ≤ i → i < k →
        inBounds w.gmap (p.x + (i : Int) * p.dx) (p.y + (i : Int) * p.dy) = true
        ∧ w.gmap.walkable (p.x + (i : Int) * p.dx) (p.y + (i : Int) * p.dy) = true) :
    ∀ j : Nat, j < k → StraightFlightState w p j := by
  intro j
  induction j with
  | zero =>
    intro _
    refine ⟨hkind, hdone, ?_, ?_, ?_, rfl, rfl, rfl, rfl⟩
    · show p.x = p.x + (0 : Int) * p.dx
      ring
    · show p.y = p.y + (0 : Int) * p.dy
      ring
    · push_cast; exact hdist
  | succ j ih =>
    intro hj
    have hPj := ih (by omega)
    have hgj := hgood (j + 1) (by omega) hj
    have hin : inBounds w.gmap (p.x + ((j : Int) + 1) * p.dx) (p.y + ((j : Int) + 1) * p.dy) = true := by
      have := hgj.1
      push_cast at this
      exact this
    have hwalk : w.gmap.walkable (p.x + ((j : Int) + 1) * p.dx) (p.y + ((j : Int) + 1) * p.dy) = true := by
      have := hgj.2
      push_cast at this
      exact this
    exact straight_flight_step w p j hPj hin hwalk (by omega)

/-! ### Helper lemmas: world mutation projections -/

theorem getActorById_setActor (w : World) (i j : Nat) (f : Actor → Actor)
    (hid : ∀ a, (f a).id = a.id) :
    getActorById (setActor w i f) j
      = (getActorById w j).map (fun a => if a.id = i then f a else a) := by
  by_cases hji : j = i
  · subst hji
    cases he : getActorById w j with
    | none => rw [getActorById_setActor_none w j f hid he]; rfl
    | some e =>
      rw [getActorById_setActor_self w j f hid e he]
      have hej : e.id = j := by simpa using List.find?_some he
      simp [hej]
  · rw [getActorById_setActor_other w i j hji f hid]
    cases he : getActorById w j with
    | none => rfl
    | some e =>
      have hej : e.id = j := by simpa using List.find?_some he
      simp [hej, hji]

theorem hpOf_setActor_pres (w : World) (i j : Nat) (f : Actor → Actor)
    (hid : ∀ a, (f a).id = a.id) (hhp : ∀ a, (f a).fighter.hp = a.fighter.hp) :
    hpOf (setActor w i f) j = hpOf w j := by
  unfold hpOf
  rw [getActorById_setActor w i j f hid]
  cases getActorById w j with
  | none => rfl
  | some a =>
    by_cases h : a.id = i <;> simp [h, hhp a]

theorem aiOf_setActor_pres (w : World) (i j : Nat) (f : Actor → Actor)
    (hid : ∀ a, (f a).id = a.id) (hai : ∀ a, (f a).ai = a.ai) :
    aiOf (setActor w i f) j = aiOf w j := by
  unfold aiOf
  rw [getActorById_setActor w i j f hid]
  cases getActorById w j with
  | none => rfl
  | some a =>
    by_cases h : a.id = i <;> simp [h, hai a]

theorem isSome_getActorById_setActor (w : World) (i j : Nat) (f : Actor → Actor)
    (hid : ∀ a, (f a).id = a.id) :
    (getActorById (setActor w i f) j).isSome = (getActorById w j).isSome := by
  rw [getActorById_setActor w i j f hid]
  cases getActorById w j <;> rfl

theorem buffsOf_setActor_pres (w : World) (i j : Nat) (f : Actor → Actor)
    (hid : ∀ a, (f a).id = a.id) (hb : ∀ a, (f a).fighter.buffs = a.fighter.buffs) :
    buffsOf (setActor w i f) j = buffsOf w j := by
  unfold buffsOf
  rw [getActorById_setActor w i j f hid]
  cases getActorById w j with
  | none => rfl
  | some a =>
    by_cases h : a.id = i <;> simp [h, hb a]

theorem basePowerOf_setActor_pres (w : World) (i j : Nat) (f : Actor → Actor)
    (hid : ∀ a, (f a).id = a.id) (hb : ∀ a, (f a).fighter.base_power = a.fighter.base_power) :
    basePowerOf (setActor w i f) j = basePowerOf w j := by
  unfold basePowerOf
  rw [getActorById_setActor w i j f hid]
  cases getActorById w j with
  | none => rfl
  | some a =>
    by_cases h : a.id = i <;> simp [h, hb a]

theorem msgFold_actors (l : List Buff) (m : Msg) :
    ∀ w : World, (l.foldl (fun acc (_ : Buff) => logMsg acc m) w).actors = w.actors := by
  induction l with
  | nil => intro w; rfl
  | cons b l ih => intro w; exact (ih (logMsg w m)).trans rfl

theorem msgFold_gmap (l : List Buff) (m : Msg) :
    ∀ w : World, (l.foldl (fun acc (_ : Buff) => logMsg acc m) w).gmap = w.gmap := by
  induction l with
  | nil => intro w; rfl
  | cons b l ih => intro w; exact (ih (logMsg w m)).trans rfl

theorem getActorById_actors_eq (w1 w2 : World) (h : w1.actors = w2.actors) (j : Nat) :
    getActorById w1 j = getActorById w2 j := by
  unfold getActorById
  rw [h]

theorem hpOf_actors_eq (w1 w2 : World) (h : w1.actors = w2.actors) (j : Nat) :
    hpOf w1 j = hpOf w2 j := by
  unfold hpOf
  rw [getActorById_actors_eq w1 w2 h j]

theorem aiOf_actors_eq (w1 w2 : World) (h : w1.actors = w2.actors) (j : Nat) :
    aiOf w1 j = aiOf w2 j := by
  unfold aiOf
  rw [getActorById_actors_eq w1 w2 h j]

theorem hpOf_refreshBuffs (w : World) (i j : Nat) :
    hpOf (refreshBuffs w i) j = hpOf w j := by
  unfold refreshBuffs
  cases he : getActorById w i with
  | none => rfl
  | some e =>
    dsimp only
    rw [hpOf_actors_eq _ _ (msgFold_actors _ _ _) j]
    exact hpOf_setActor_pres w i j _ (fun a => rfl) (fun a => rfl)

theorem aiOf_refreshBuffs (w : World) (i j : Nat) :
    aiOf (refreshBuffs w i) j = aiOf w j := by
  unfold refreshBuffs
  cases he : getActorById w i with
  | none => rfl
  | some e =>
    dsimp only
    rw [aiOf_actors_eq _ _ (msgFold_actors _ _ _) j]
    exact aiOf_setActor_pres w i j _ (fun a => rfl) (fun a => rfl)

theorem isSome_refreshBuffs (w : World) (i j : Nat) :
    (getActorById (refreshBuffs w i) j).isSome = (getActorById w j).isSome := by
  unfold refreshBuffs
  cases he : getActorById w i with
  | none => rfl
  | some e =>
    dsimp only
    rw [getActorById_actors_eq _ _ (msgFold_actors _ _ _) j]
    exact isSome_getActorById_setActor w i j _ (fun a => rfl)

theorem hpOf_takeDamage_self (w : World) (i : Nat) (d : Int)
    (h : (getActorById w i).isSome = true) :
    hpOf (setActor w i (fun a =>
      { a with fighter := { a.fighter with hp := a.fighter.hp - d } })) i = hpOf w i - d := by
  obtain ⟨a, ha⟩ := Option.isSome_iff_exists.mp h
  unfold hpOf
  rw [getActorById_setActor_self w i
    (fun a => { a with fighter := { a.fighter with hp := a.fighter.hp - d } })
    (fun a => rfl) a ha, ha]

/-! ### Helper lemmas: the Confused wrapper -/

theorem aiOf_performMelee (w : World) (i : Nat) (dx dy : Int) (j : Nat) :
    aiOf (performMelee w i dx dy).1 j = aiOf w j := by
  unfold performMelee
  cases he : getActorById w i with
  | none => rfl
  | some e =>
    dsimp only
    cases ht : getActorAt w (e.x + dx) (e.y + dy) with
    | none => rfl
    | some t =>
      dsimp only
      split
      · exact (aiOf_setActor_pres
          (logMsg (refreshBuffs w i) (Msg.attackHit i t.id (e.fighter.power - t.fighter.defense)))
          t.id j
          (fun a => { a with fighter := { a.fighter with
              hp := a.fighter.hp - (e.fighter.power - t.fighter.defense) } })
          (fun a => rfl) (fun a => rfl)).trans
          ((aiOf_actors_eq _ (refreshBuffs w i) rfl j).trans (aiOf_refreshBuffs w i j))
      · exact (aiOf_actors_eq (logMsg (refreshBuffs w i) (Msg.attackNoDamage i t.id))
          (refreshBuffs w i) rfl j).trans (aiOf_refreshBuffs w i j)

theorem aiOf_performMovement (w : World) (i : Nat) (dx dy : Int) (j : Nat) :
    aiOf (performMovement w i dx dy).1 j = aiOf w j := by
  unfold performMovement
  cases he : getActorById w i with
  | none => rfl
  | some e =>
    dsimp only
    split
    · rfl
    · split
      · rfl
      · split
        · rfl
        · exact aiOf_setActor_pres w i j _ (fun a => rfl) (fun a => rfl)

theorem aiOf_performBump (w : World) (i : Nat) (dx dy : Int) (j : Nat) :
    aiOf (performBump w i dx dy).1 j = aiOf w j := by
  unfold performBump
  cases he : getActorById w i with
  | none => rfl
  | some e =>
    dsimp only
    split
    · exact aiOf_performMelee w i dx dy j
    · exact aiOf_performMovement w i dx dy j

theorem isSome_performMelee (w : World) (i : Nat) (dx dy : Int) (j : Nat) :
    (getActorById (performMelee w i dx dy).1 j).isSome = (getActorById w j).isSome := by
  unfold performMelee
  cases he : getActorById w i with
  | none => rfl
  | some e =>
    dsimp only
    cases ht : getActorAt w (e.x + dx) (e.y + dy) with
    | none => rfl
    | some t =>
      dsimp only
      split
      · exact (isSome_getActorById_setActor
          (logMsg (refreshBuffs w i) (Msg.attackHit i t.id (e.fighter.power - t.fighter.defense)))
          t.id j
          (fun a => { a with fighter := { a.fighter with
              hp := a.fighter.hp - (e.fighter.power - t.fighter.defense) } })
          (fun a => rfl)).trans
          ((congrArg Option.isSome
            (getActorById_actors_eq _ (refreshBuffs w i) rfl j)).trans
            (isSome_refreshBuffs w i j))
      · exact (congrArg Option.isSome
          (getActorById_actors_eq (logMsg (refreshBuffs w i) (Msg.attackNoDamage i t.id))
            (refreshBuffs w i) rfl j)).trans (isSome_refreshBuffs w i j)

theorem isSome_performMovement (w : World) (i : Nat) (dx dy : Int) (j : Nat) :
    (getActorById (performMovement w i dx dy).1 j).isSome = (getActorById w j).isSome := by
  unfold performMovement
  cases he : getActorById w i with
  | none => rfl
  | some e =>
    dsimp only
    split
    · rfl
    · split
      · rfl
      · split
        · rfl
        · exact isSome_getActorById_setActor w i j _ (fun a => rfl)

theorem isSome_performBump (w : World) (i : Nat) (dx dy : Int) (j : Nat) :
    (getActorById (performBump w i dx dy).1 j).isSome = (getActorById w j).isSome := by
  unfold performBump
  cases he : getActorById w i with
  | none => rfl
  | some e =>
    dsimp only
    split
    · exact isSome_performMelee w i dx dy j
    · exact isSome_performMovement w i dx dy j

theorem aiOf_set_ai (w : World) (i : Nat) (v : Option AI)
    (hex : (getActorById w i).isSome = true) :
    aiOf (setActor w i (fun a => { a with ai := v })) i = v := by
  obtain ⟨e, he⟩ := Option.isSome_iff_exists.mp hex
  unfold aiOf
  rw [getActorById_setActor_self w i (fun a => { a with ai := v }) (fun a => rfl) e he]

theorem confusedTick_decrement (w : World) (eid : Nat) (prev : Option AI) (n : Int)
    (d : Int × Int) (hex : (getActorById w eid).isSome = true)
    (hai : aiOf w eid = some (AI.confused prev n)) (hpos : 0 < n) :
    aiOf (confusedTick w eid d).1 eid = some (AI.confused prev (n - 1))
    ∧ (getActorById (confusedTick w eid d).1 eid).isSome = true := by
  obtain ⟨e, he⟩ := Option.isSome_iff_exists.mp hex
  have heai : e.ai = some (AI.confused prev n) := by
    unfold aiOf at hai
    rw [he] at hai
    exact hai
  unfold confusedTick
  rw [he]
  dsimp only
  rw [heai]
  dsimp only
  unfold confusedPerform
  rw [if_neg (by omega)]
  dsimp only
  constructor
  · rw [aiOf_performBump]
    exact aiOf_set_ai w eid (some (AI.confused prev (n - 1))) hex
  · rw [isSome_performBump]
    exact (isSome_getActorById_setActor w eid eid
      (fun a => { a with ai := some (AI.confused prev (n - 1)) }) (fun a => rfl)).trans hex

theorem confusedTick_restore (w : World) (eid : Nat) (prev : Option AI) (n : Int)
    (d : Int × Int) (hex : (getActorById w eid).isSome = true)
    (hai : aiOf w eid = some (AI.confused prev n)) (hz : n ≤ 0) :
    aiOf (confusedTick w eid d).1 eid = prev := by
  obtain ⟨e, he⟩ := Option.isSome_iff_exists.mp hex
  have heai : e.ai = some (AI.confused prev n) := by
    unfold aiOf at hai
    rw [he] at hai
    exact hai
  unfold confusedTick
  rw [he]
  dsimp only
  rw [heai]
  dsimp only
  unfold confusedPerform
  rw [if_pos hz]
  dsimp only
  exact aiOf_set_ai (logMsg w (Msg.noLongerConfused eid)) eid prev hex

theorem confusedTicks_still_confused (eid : Nat) (prev : Option AI) :
    ∀ (ds : List (Int × Int)) (w : World) (N : Nat),
      (getActorById w eid).isSome = true →
      aiOf w eid = some (AI.confused prev (N : Int)) →
      ds.length ≤ N →
      aiOf (confusedTicks w eid ds) eid
        = some (AI.confused prev ((N : Int) - ds.length)) := by
  intro ds
  induction ds with
  | nil =>
    intro w N hex hai _
    simpa using hai
  | cons d ds ih =>
    intro w N hex hai hlen
    have hN1 : 1 ≤ N := by
      have := hlen
      simp at this
      omega
    obtain ⟨M, hM⟩ : ∃ M, N = M + 1 := ⟨N - 1, by omega⟩
    have htick := confusedTick_decrement w eid prev (N : Int) d hex hai (by omega)
    have hcast : ((N : Int) - 1) = (M : Int) := by omega
    rw [hcast] at htick
    unfold confusedTicks
    have hrec := ih (confusedTick w eid d).1 M htick.2 htick.1
      (by simp at hlen; omega)
    rw [hrec]
    have : (M : Int) - ds.length = (N : Int) - (ds.length + 1) := by omega
    rw [this]
    simp

theorem confusedTicks_restore_after (eid : Nat) (prev : Option AI) :
    ∀ (ds : List (Int × Int)) (w : World) (N : Nat),
      (getActorById w eid).isSome = true →
      aiOf w eid = some (AI.confused prev (N : Int)) →
      ds.length = N + 1 →
      aiOf (confusedTicks w eid ds) eid = prev := by
  intro ds
  induction ds with
  | nil =>
    intro w N _ _ hlen
    simp at hlen
  | cons d ds ih =>
    intro w N hex hai hlen
    cases N with
    | zero =>
      have hds : ds = [] := by
        simp at hlen
        exact hlen
      subst hds
      unfold confusedTicks
      unfold confusedTicks
      exact confusedTick_restore w eid prev 0 d hex hai (by omega)
    | succ M =>
      have htick := confusedTick_decrement w eid prev ((M + 1 : Nat) : Int) d hex hai (by push_cast; omega)
      have hcast : (((M + 1 : Nat) : Int) - 1) = (M : Int) := by push_cast; omega
      rw [hcast] at htick
      unfold confusedTicks
      exact ih (confusedTick w eid d).1 M htick.2 htick.1 (by simp at hlen; omega)

/-! ### Helper lemmas: the scheduler -/

theorem updateProjectiles_foldl_misc (ps : List Projectile) :
    ∀ (w : World) (acc : List Projectile),
      (ps.foldl (fun (acc : World × List Projectile) p =>
        let up := projUpdate acc.1 p
        (up.1, if up.2.done then acc.2 else acc.2 ++ [up.2])) (w, acc)).1.game_state
          = w.game_state
      ∧ (ps.foldl (fun (acc : World × List Projectile) p =>
        let up := projUpdate acc.1 p
        (up.1, if up.2.done then acc.2 else acc.2 ++ [up.2])) (w, acc)).1.gmap = w.gmap := by
  induction ps with
  | nil => intro w acc; exact ⟨rfl, rfl⟩
  | cons p ps ih =>
    intro w acc
    have hstep := projUpdate_world_misc w p
    have hrec := ih (projUpdate w p).1
      (if (projUpdate w p).2.done then acc else acc ++ [(projUpdate w p).2])
    exact ⟨hrec.1.trans hstep.2.1, hrec.2.trans hstep.1⟩

theorem updateProjectiles_foldl_log (ps : List Projectile) :
    ∀ (w : World) (acc : List Projectile),
      ∃ ext, (ps.foldl (fun (acc : World × List Projectile) p =>
        let up := projUpdate acc.1 p
        (up.1, if up.2.done then acc.2 else acc.2 ++ [up.2])) (w, acc)).1.log = w.log ++ ext := by
  induction ps with
  | nil => intro w acc; exact ⟨[], by simp⟩
  | cons p ps ih =>
    intro w acc
    obtain ⟨e1, he1⟩ := projUpdate_log_append w p
    obtain ⟨e2, he2⟩ := ih (projUpdate w p).1
      (if (projUpdate w p).2.done then acc else acc ++ [(projUpdate w p).2])
    refine ⟨e1 ++ e2, ?_⟩
    rw [List.foldl_cons]
    dsimp only
    rw [he2, he1, List.append_assoc]

theorem updateProjectiles_game_state (w : World) :
    (updateProjectiles w).game_state = w.game_state := by
  unfold updateProjectiles
  exact (updateProjectiles_foldl_misc w.active_projectiles w []).1

theorem updateProjectiles_log_append (w : World) :
    ∃ ext, (updateProjectiles w).log = w.log ++ ext := by
  unfold updateProjectiles
  exact updateProjectiles_foldl_log w.active_projectiles w []

theorem enemyClockStep_game_state (f : World → World) (t : Int) (w : World)
    (hf : ∀ v, (f v).game_state = v.game_state) :
    (enemyClockStep f t w).game_state = w.game_state := by
  unfold enemyClockStep
  split
  · exact hf w
  · rfl

theorem enemyClockStep_log (f : World → World) (t : Int) (w : World)
    (hflog : ∀ v, ∃ ext, (f v).log = v.log ++ ext) :
    ∃ ext, (enemyClockStep f t w).log = w.log ++ ext := by
  unfold enemyClockStep
  split
  · exact hflog w
  · exact ⟨[], by simp⟩

theorem exitCombatCheck_game_state (w : World) :
    (exitCombatCheck w).game_state = GameState.exploration := by
  unfold exitCombatCheck
  split
  · rfl
  · rename_i h
    cases hg : w.game_state with
    | exploration => rfl
    | turn_based => exact absurd hg h

theorem exitCombatCheck_log_turn_based (w : World) (h : w.game_state = GameState.turn_based) :
    (exitCombatCheck w).log = w.log ++ [Msg.combatEnded] := by
  unfold exitCombatCheck
  rw [if_pos h]

/-! ### Helper lemmas: ring probe geometry -/

theorem mem_intRange (i lo hi : Int) : i ∈ intRange lo hi ↔ lo ≤ i ∧ i ≤ hi := by
  unfold intRange
  constructor
  · intro h
    obtain ⟨k, hk, hEq⟩ := List.mem_map.mp h
    rw [List.mem_range] at hk
    omega
  · intro hb
    apply List.mem_map.mpr
    refine ⟨(i - lo).toNat, List.mem_range.mpr (by omega), by omega⟩

theorem foldl_append_eq_append_bind (g : Int → List (Int × Int)) :
    ∀ (L : List Int) (init : List (Int × Int)),
      L.foldl (fun acc x => acc ++ g x) init = init ++ L.flatMap g := by
  intro L
  induction L with
  | nil => intro init; simp
  | cons x L ih =>
    intro init
    rw [List.foldl_cons, ih (init ++ g x)]
    simp

theorem mem_ringProbes (c : Int × Int) (cx cy r : Int) :
    c ∈ ringProbes cx cy r ↔
      ∃ dx dy : Int, -r ≤ dx ∧ dx ≤ r ∧ -r ≤ dy ∧ dy ≤ r
        ∧ (|dx| = r ∨ |dy| = r) ∧ c = (cx + dx, cy + dy) := by
  unfold ringProbes
  rw [foldl_append_eq_append_bind]
  simp only [List.nil_append, List.mem_flatMap, List.mem_filterMap, mem_intRange]
  constructor
  · rintro ⟨dx, ⟨hdx1, hdx2⟩, dy, ⟨⟨hdy1, hdy2⟩, hif⟩⟩
    by_cases hcond : |dx| = r ∨ |dy| = r
    · rw [if_pos hcond] at hif
      exact ⟨dx, dy, hdx1, hdx2, hdy1, hdy2, hcond, (Option.some.inj hif).symm⟩
    · rw [if_neg hcond] at hif
      cases hif
  · rintro ⟨dx, dy, hdx1, hdx2, hdy1, hdy2, hcond, rfl⟩
    exact ⟨dx, ⟨hdx1, hdx2⟩, dy, ⟨⟨hdy1, hdy2⟩, by rw [if_pos hcond]⟩⟩

theorem ringProbes_chebyshev (cx cy r : Int) (hr : 0 < r) :
    ∀ c ∈ ringProbes cx cy r, max |c.1 - cx| |c.2 - cy| = r := by
  intro c hc
  obtain ⟨dx, dy, hdx1, hdx2, hdy1, hdy2, hcond, rfl⟩ := (mem_ringProbes c cx cy r).mp hc
  have hdxa : |dx| ≤ r := abs_le.mpr ⟨hdx1, hdx2⟩
  have hdya : |dy| ≤ r := abs_le.mpr ⟨hdy1, hdy2⟩
  have hx : (cx + dx) - cx = dx := by ring
  have hy : (cy + dy) - cy = dy := by ring
  simp only [hx, hy]
  rcases hcond with h | h
  · rw [max_eq_left (le_trans hdya (le_of_eq h.symm)), h]
  · rw [max_eq_right (le_trans hdxa (le_of_eq h.symm)), h]

/-! ### Helper lemmas: the pathfinding cost grid -/

theorem costFold_pos (x y : Int) :
    ∀ (l : List Actor) (c : Int), 0 < c →
      l.foldl (fun c e =>
          if e.blocks_movement && (e.x == x && e.y == y) && c != 0 then c + 10 else c) c
        = c + 10 * ((l.filter (fun e => e.blocks_movement && (e.x == x && e.y == y))).length : Int) := by
  intro l
  induction l with
  | nil => intro c _; simp
  | cons a l ih =>
    intro c hc
    rw [List.foldl_cons]
    by_cases hb : (a.blocks_movement && (a.x == x && a.y == y)) = true
    · have hcz : (c != 0) = true := by
        simp
        omega
      rw [if_pos (by rw [hb, hcz]; rfl)]
      rw [ih (c + 10) (by omega)]
      rw [List.filter_cons, if_pos hb, List.length_cons]
      push_cast
      ring
    · rw [if_neg (by rw [Bool.and_eq_true, Bool.and_eq_true]; intro hcon; exact hb (by
        rw [Bool.and_eq_true]; exact hcon.1))]
      rw [ih c hc]
      rw [List.filter_cons, if_neg hb]

theorem costFold_zero (x y : Int) :
    ∀ (l : List Actor),
      l.foldl (fun c e =>
          if e.blocks_movement && (e.x == x && e.y == y) && c != 0 then c + 10 else c) (0 : Int)
        = 0 := by
  intro l
  induction l with
  | nil => rfl
  | cons a l ih =>
    rw [List.foldl_cons]
    rw [if_neg (by simp)]
    exact ih

/-! ### Claim theorems -/

/-- C2: for every projectile and every actor, across the update frames of the
projectile's lifetime check_collision reduces that actor's hp at most once —
once some frame changes the actor's hp, every later frame leaves it unchanged
(the hit-once set) — and a projectile never changes the hp of its own owner
unless its self-hit flag is explicitly set. -/
theorem projectile_hits_actor_at_most_once (w : World) (p : Projectile) (aid : Nat) :
    (∀ k j : Nat, k < j →
        hpOf (projIter w p (k + 1)).1 aid ≠ hpOf (projIter w p k).1 aid →
        hpOf (projIter w p (j + 1)).1 aid = hpOf (projIter w p j).1 aid)
    ∧ (aid = p.owner_id → p.can_hit_self = false →
        ∀ n : Nat, hpOf (projIter w p n).1 aid = hpOf w aid) := by
  constructor
  · intro k j hkj hch
    have hmem : aid ∈ (projIter w p (k + 1)).2.hit_ids := by
      rw [projIter_succ] at hch ⊢
      exact (projUpdate_hp_change _ _ aid hch).2
    have hmemj : aid ∈ (projIter w p j).2.hit_ids :=
      projIter_mem_le w p aid (k + 1) hmem j hkj
    rw [projIter_succ]
    exact projUpdate_hp_of_mem _ _ aid hmemj
  · intro ho hc n
    induction n with
    | zero => rfl
    | succ n ih =>
      rw [projIter_succ]
      have hoc := projIter_owner_canhit w p n
      have hstep : hpOf (projUpdate (projIter w p n).1 (projIter w p n).2).1
          ((projIter w p n).2.owner_id) = hpOf (projIter w p n).1 ((projIter w p n).2.owner_id) :=
        projUpdate_owner_hp _ _ (hoc.2.trans hc)
      rw [hoc.1, ← ho] at hstep
      rw [hstep, ih]

/-- Witness for C2: in the concrete straight-shot scenario the victim (id 1)
is damaged on frame 2, frame 3 then leaves it unchanged, and the owner
(id 0) is never damaged. -/
theorem projectile_hits_actor_at_most_once_witness :
    hpOf (projIter c2World c2Proj 2).1 1 ≠ hpOf (projIter c2World c2Proj 1).1 1
    ∧ hpOf (projIter c2World c2Proj 3).1 1 = hpOf (projIter c2World c2Proj 2).1 1
    ∧ hpOf (projIter c2World c2Proj 4).1 0 = hpOf c2World 0 :=
  ⟨by decide,
   (projectile_hits_actor_at_most_once c2World c2Proj 1).1 1 2 (by omega) (by decide),
   (projectile_hits_actor_at_most_once c2World c2Proj 0).2 rfl rfl 4⟩

/-- C7 counterexample: a straight projectile with range R = 2 and unit
velocity on an unobstructed open map is already done after 2 update calls, so
its done flag does not first become true at R + 1 = 3 calls: the claimed
pattern (not done within R calls, done at the R+1st) is false. -/
theorem straight_projectile_done_time_counterexample :
    ¬ ((projIter c7World c7Proj 2).2.done = false
        ∧ (projIter c7World c7Proj 3).2.done = true) := by
  intro h
  exact absurd h.1 (by decide)

/-- C7 (amended): a straight-line projectile with unit velocity whose first
k - 1 path cells are in bounds and walkable becomes done at exactly the k-th
update call, where k is its range when unobstructed (so done after exactly R
calls, not R + 1), and k is strictly earlier — the index of the first
non-walkable or out-of-bounds cell — when that cell is reached before the
range budget runs out. -/
theorem straight_projectile_done_exactly (w : World) (p : Projectile) (k : Nat)
    (hkind : p.kind = PKind.straight) (hdone : p.done = false)
    (hdist : p.distance_travelled = 0)
    (hunit : max (p.dx.natAbs) (p.dy.natAbs) = 1)
    (hk1 : 1 ≤ k) (hkR : (k : Int) ≤ p.range)
    (hgood : ∀ i : Nat, 1 ≤ i → i < k →
        inBounds w.gmap (p.x + (i : Int) * p.dx) (p.y + (i : Int) * p.dy) = true
        ∧ w.gmap.walkable (p.x + (i : Int) * p.dx) (p.y + (i : Int) * p.dy) = true)
    (hstop : (k : Int) = p.range
        ∨ inBounds w.gmap (p.x + (k : Int) * p.dx) (p.y + (k : Int) * p.dy) = false
        ∨ w.gmap.walkable (p.x + (k : Int) * p.dx) (p.y + (k : Int) * p.dy) = false) :
    (∀ j : Nat, j < k → (projIter w p j).2.done = false)
    ∧ (projIter w p k).2.done = true := by
  have hpre := straight_flight_prefix w p k hkind hdone hdist hkR hgood
  constructor
  · intro j hj
    exact (hpre j hj).2.1
  · obtain ⟨hk2, hd2, hx2, hy2, hdist2, hdx2, hdy2, hr2, hg2⟩ := hpre (k - 1) (by omega)
    have hkk : k = (k - 1) + 1 := by omega
    have hstep : projIter w p k = projMove (projIter w p (k - 1)).1 (projIter w p (k - 1)).2 := by
      nth_rewrite 1 [hkk]
      rw [projIter_succ]
      unfold projUpdate
      rw [hk2]
      dsimp only
      rw [if_neg (by rw [hd2]; exact Bool.false_ne_true)]
    have hcast : ((k - 1 : Nat) : Int) + 1 = (k : Int) := by
      omega
    have harg1 : (projIter w p (k - 1)).2.x + (projIter w p (k - 1)).2.dx
        = p.x + (k : Int) * p.dx := by
      rw [hx2, hdx2, ← hcast]; ring
    have harg2 : (projIter w p (k - 1)).2.y + (projIter w p (k - 1)).2.dy
        = p.y + (k : Int) * p.dy := by
      rw [hy2, hdy2, ← hcast]; ring
    rw [hstep]
    apply projMove_stop
    rw [harg1, harg2, hg2, hdist2, hr2]
    rcases hstop with h | h | h
    · right; right; omega
    · left; exact h
    · right; left; exact h

/-- Witness for C7 (amended): the range 2 projectile on the open map is not
done before 2 update calls and done at exactly the 2nd. -/
theorem straight_projectile_done_exactly_witness :
    (projIter c7World c7Proj 1).2.done = false ∧ (projIter c7World c7Proj 2).2.done = true := by
  have h := straight_projectile_done_exactly c7World c7Proj 2 rfl rfl rfl (by decide)
    (by omega) (by decide)
    (by
      intro i h1 h2
      have hi : i = 1 := by omega
      subst hi
      exact ⟨by decide, by decide⟩)
    (by left; decide)
  exact ⟨h.1 1 (by omega), h.2⟩

/-- C1: a Movement action succeeds — with no Impossible message, translating
the actor by (dx,dy) — exactly when the destination is in bounds, walkable
and free of blocking entities; in every other case it reports "That way is
blocked." and leaves the world, hence the actor's position, unchanged. -/
theorem movement_succeeds_iff_free_destination (w : World) (eid : Nat) (dx dy : Int)
    (e : Actor) (he : getActorById w eid = some e) :
    ((performMovement w eid dx dy).2 = none ↔
        inBounds w.gmap (e.x + dx) (e.y + dy) = true
        ∧ w.gmap.walkable (e.x + dx) (e.y + dy) = true
        ∧ getBlockingEntityAt w (e.x + dx) (e.y + dy) = none)
    ∧ ((performMovement w eid dx dy).2 = none →
        getActorById (performMovement w eid dx dy).1 eid
          = some { e with x := e.x + dx, y := e.y + dy })
    ∧ ((performMovement w eid dx dy).2 ≠ none →
        (performMovement w eid dx dy).2 = some blockedMsg
        ∧ (performMovement w eid dx dy).1 = w) := by
  unfold performMovement
  rw [he]
  dsimp only
  by_cases h1 : inBounds w.gmap (e.x + dx) (e.y + dy) = true
  · rw [if_neg (by rw [h1]; simp)]
    by_cases h2 : w.gmap.walkable (e.x + dx) (e.y + dy) = true
    · rw [if_neg (by rw [h2]; simp)]
      by_cases h3 : (getBlockingEntityAt w (e.x + dx) (e.y + dy)).isSome = true
      · rw [if_pos h3]
        refine ⟨⟨fun hc => by simp at hc, ?_⟩, fun hc => by simp at hc, fun _ => ⟨rfl, rfl⟩⟩
        rintro ⟨_, _, hb⟩
        rw [hb] at h3
        simp at h3
      · rw [if_neg h3]
        refine ⟨⟨fun _ => ⟨h1, h2, ?_⟩, fun _ => rfl⟩, fun _ => ?_, fun hc => absurd rfl hc⟩
        · exact Option.not_isSome_iff_eq_none.mp (by simpa using h3)
        · exact getActorById_setActor_self w eid
            (fun a => { a with x := a.x + dx, y := a.y + dy }) (fun a => rfl) e he
    · rw [if_pos h2]
      refine ⟨⟨fun hc => by simp at hc, ?_⟩, fun hc => by simp at hc, fun _ => ⟨rfl, rfl⟩⟩
      rintro ⟨_, hw, _⟩
      exact absurd hw h2
  · rw [if_pos h1]
    refine ⟨⟨fun hc => by simp at hc, ?_⟩, fun hc => by simp at hc, fun _ => ⟨rfl, rfl⟩⟩
    rintro ⟨hb, _, _⟩
    exact absurd hb h1

/-- Witness for C1: on the open 5 by 5 map the lone actor moves east
successfully, ending translated by (1,0). -/
theorem movement_succeeds_iff_free_destination_witness :
    (performMovement c1World 0 1 0).2 = none
    ∧ getActorById (performMovement c1World 0 1 0).1 0
        = some { c1Actor with x := c1Actor.x + 1, y := c1Actor.y + 0 } := by
  have h := movement_succeeds_iff_free_destination c1World 0 1 0 c1Actor rfl
  have hnone : (performMovement c1World 0 1 0).2 = none := h.1.mpr ⟨rfl, rfl, rfl⟩
  exact ⟨hnone, h.2.1 hnone⟩

/-- C10: a Bump action, for an actor that exists, can only fail with
Movement's "That way is blocked."; in particular when an actor occupies the
destination the delegated Melee action never reaches its "Nothing to attack"
branch and the bump succeeds outright. -/
theorem bump_raises_only_movement_blocked (w : World) (eid : Nat) (dx dy : Int)
    (e : Actor) (he : getActorById w eid = some e) :
    (∀ msg, (performBump w eid dx dy).2 = some msg → msg = blockedMsg)
    ∧ ((getActorAt w (e.x + dx) (e.y + dy)).isSome = true →
        (performBump w eid dx dy).2 = none) := by
  unfold performBump
  rw [he]
  dsimp only
  by_cases ht : (getActorAt w (e.x + dx) (e.y + dy)).isSome = true
  · rw [if_pos ht]
    obtain ⟨t, hts⟩ := Option.isSome_iff_exists.mp ht
    have hm : (performMelee w eid dx dy).2 = none := by
      unfold performMelee
      rw [he]
      dsimp only
      rw [hts]
      dsimp only
      split <;> rfl
    refine ⟨fun msg hc => ?_, fun _ => hm⟩
    rw [hm] at hc
    cases hc
  · rw [if_neg ht]
    refine ⟨?_, fun hcontra => absurd hcontra ht⟩
    intro msg
    unfold performMovement
    rw [he]
    dsimp only
    split
    · intro hc; exact (Option.some.inj hc).symm
    · split
      · intro hc; exact (Option.some.inj hc).symm
      · split
        · intro hc; exact (Option.some.inj hc).symm
        · intro hc; cases hc

/-- Witness for C10: bumping into the adjacent occupied tile raises nothing. -/
theorem bump_raises_only_movement_blocked_witness :
    (performBump c10World 0 1 0).2 = none := by
  have h := bump_raises_only_movement_blocked c10World 0 1 0
    (mkActor 0 1 1 (mkFighter 10 5 0 [])) rfl
  exact h.2 rfl

/-- C3 counterexample: with attacker base power 8 including a +3 buff with
one turn left and defender defense 6, the source order (damage computed
before the buff refresh) deals 2 damage leaving hp 8, while the claimed
order (refresh before computing) would deal none and leave hp 10. -/
theorem melee_refresh_order_counterexample :
    hpOf (performMelee c3World 0 1 0).1 1 = 8
    ∧ hpOf (performMeleeSpecOrdered c3World 0 1 0).1 1 = 10
    ∧ hpOf (performMelee c3World 0 1 0).1 1
        ≠ hpOf (performMeleeSpecOrdered c3World 0 1 0).1 1 := by
  refine ⟨rfl, rfl, ?_⟩
  intro hc
  rw [show hpOf (performMelee c3World 0 1 0).1 1 = 8 from rfl,
      show hpOf (performMeleeSpecOrdered c3World 0 1 0).1 1 = 10 from rfl] at hc
  cases hc

/-- C3 (amended): for every Melee action with an actor at the destination,
the damage value power - defense is computed from the attacker's stats
before the timed-buff refresh, which is applied afterwards; the damage is
subtracted from the defender's hp exactly once and only when strictly
positive (otherwise hp is unchanged and a no-damage message is logged); the
defender's hp never increases. -/
theorem melee_damage_before_refresh (w : World) (eid : Nat) (dx dy : Int)
    (e t : Actor) (he : getActorById w eid = some e)
    (ht : getActorAt w (e.x + dx) (e.y + dy) = some t) :
    (performMelee w eid dx dy).2 = none
    ∧ hpOf (performMelee w eid dx dy).1 t.id
        = hpOf w t.id - (if e.fighter.power - t.fighter.defense > 0
            then e.fighter.power - t.fighter.defense else 0)
    ∧ hpOf (performMelee w eid dx dy).1 t.id ≤ hpOf w t.id
    ∧ buffsOf (performMelee w eid dx dy).1 eid = buffsOf (refreshBuffs w eid) eid
    ∧ basePowerOf (performMelee w eid dx dy).1 eid = basePowerOf (refreshBuffs w eid) eid
    ∧ (performMelee w eid dx dy).1.log
        = (refreshBuffs w eid).log
          ++ [if e.fighter.power - t.fighter.defense > 0
              then Msg.attackHit eid t.id (e.fighter.power - t.fighter.defense)
              else Msg.attackNoDamage eid t.id] := by
  have htmem : t ∈ w.actors := List.mem_of_find?_eq_some ht
  have hex : (getActorById w t.id).isSome = true :=
    List.find?_isSome.mpr ⟨t, htmem, by simp⟩
  have hexr : (getActorById (refreshBuffs w eid) t.id).isSome = true :=
    (isSome_refreshBuffs w eid t.id).trans hex
  unfold performMelee
  rw [he]
  dsimp only
  rw [ht]
  dsimp only
  by_cases hdmg : e.fighter.power - t.fighter.defense > 0
  · rw [if_pos hdmg]
    have hsub := hpOf_takeDamage_self
      (logMsg (refreshBuffs w eid)
        (Msg.attackHit eid t.id (e.fighter.power - t.fighter.defense)))
      t.id (e.fighter.power - t.fighter.defense) hexr
    have hlogr : hpOf (logMsg (refreshBuffs w eid)
        (Msg.attackHit eid t.id (e.fighter.power - t.fighter.defense))) t.id
        = hpOf w t.id := hpOf_refreshBuffs w eid t.id
    rw [hlogr] at hsub
    refine ⟨rfl, ?_, ?_, ?_, ?_, ?_⟩
    · rw [if_pos hdmg]
      exact hsub
    · rw [hsub]; omega
    · exact buffsOf_setActor_pres _ t.id eid _ (fun a => rfl) (fun a => rfl)
    · exact basePowerOf_setActor_pres _ t.id eid _ (fun a => rfl) (fun a => rfl)
    · rw [if_pos hdmg]; rfl
  · rw [if_neg hdmg]
    refine ⟨rfl, ?_, ?_, rfl, rfl, ?_⟩
    · rw [if_neg hdmg]
      have : hpOf (logMsg (refreshBuffs w eid) (Msg.attackNoDamage eid t.id)) t.id
          = hpOf w t.id := hpOf_refreshBuffs w eid t.id
      rw [this]; ring
    · have : hpOf (logMsg (refreshBuffs w eid) (Msg.attackNoDamage eid t.id)) t.id
          = hpOf w t.id := hpOf_refreshBuffs w eid t.id
      rw [this]
    · rw [if_neg hdmg]; rfl

/-- Witness for C3 (amended): in the concrete buff scenario the melee action
raises nothing and does not increase the defender's hp. -/
theorem melee_damage_before_refresh_witness :
    (performMelee c3World 0 1 0).2 = none
    ∧ hpOf (performMelee c3World 0 1 0).1 1 ≤ hpOf c3World 1 := by
  have h := melee_damage_before_refresh c3World 0 1 0
    (mkActor 0 0 0 (mkFighter 10 8 0 [{ amount := 3, turns_left := 1 }]))
    (mkActor 1 1 0 (mkFighter 10 2 6 [])) rfl rfl
  exact ⟨h.1, h.2.2.1⟩

/-- C4 counterexample: a Confused strategy with turns_remaining = 1 has not
yet restored the saved strategy after exactly 1 decision tick (the tick only
decrements the counter and bumps); it restores on the 2nd tick, that is after
N + 1 ticks, refuting restoration after exactly N ticks. -/
theorem confused_reverts_counterexample :
    aiOf (confusedTicks c4World 7 [(0, 1)]) 7 ≠ some AI.blacksmith
    ∧ aiOf (confusedTicks c4World 7 [(0, 1), (0, 1)]) 7 = some AI.blacksmith := by
  constructor
  · intro hc
    have h : aiOf (confusedTicks c4World 7 [(0, 1)]) 7
        = some (AI.confused (some AI.blacksmith) 0) := rfl
    rw [h] at hc
    exact AI.noConfusion (Option.some.inj hc)
  · rfl

/-- C4 (amended): a Confused strategy created with turns_remaining = N
(N at least 1) keeps wrapping the actor for the first N decision ticks — after
k of them the strategy is Confused with N - k turns remaining, whatever
random directions are drawn — and the actor's AI field is restored to the
saved previous strategy after exactly N + 1 perform calls (the call that
finds the counter at zero performs the restoration), never N. -/
theorem confused_reverts_after_exactly_n_plus_one (w : World) (eid : Nat)
    (prev : Option AI) (N : Nat) (hN : 1 ≤ N)
    (hex : (getActorById w eid).isSome = true)
    (hai : aiOf w eid = some (AI.confused prev (N : Int))) :
    (∀ ds : List (Int × Int), ds.length ≤ N →
        aiOf (confusedTicks w eid ds) eid
          = some (AI.confused prev ((N : Int) - ds.length)))
    ∧ (∀ ds : List (Int × Int), ds.length = N + 1 →
        aiOf (confusedTicks w eid ds) eid = prev) :=
  ⟨fun ds hlen => confusedTicks_still_confused eid prev ds w N hex hai hlen,
   fun ds hlen => confusedTicks_restore_after eid prev ds w N hex hai hlen⟩

/-- Witness for C4 (amended): with N = 1 the actor is still confused with 0
turns left after one tick and restored to the blacksmith strategy after two. -/
theorem confused_reverts_after_exactly_n_plus_one_witness :
    aiOf (confusedTicks c4World 7 [(1, 0)]) 7
      = some (AI.confused (some AI.blacksmith) (((1 : Nat) : Int) - [((1 : Int), (0 : Int))].length))
    ∧ aiOf (confusedTicks c4World 7 [(1, 0), (0, -1)]) 7 = some AI.blacksmith := by
  have h := confused_reverts_after_exactly_n_plus_one c4World 7 (some AI.blacksmith) 1
    (by omega) rfl rfl
  exact ⟨h.1 [(1, 0)] (by simp), h.2 [(1, 0), (0, -1)] (by simp)⟩

/-- C5 counterexample: with a visible hostile actor (id 1 with an AI on a
visible tile) the scheduler update returns early and the active projectile is
left exactly as it was — distance_travelled still 0 — whereas advancing the
simulation one frame would have changed it.  So update_realtime does not
advance the projectile simulation on every call. -/
theorem projectiles_frozen_on_visible_hostile_counterexample :
    (updateRealtime id 100 c5World).active_projectiles = [c5Proj]
    ∧ (updateProjectiles c5World).active_projectiles ≠ [c5Proj] := by
  exact ⟨by decide, by decide⟩

/-- C5 (amended): update_realtime advances the projectile simulation by
exactly one frame — running updateProjectiles as its final step, regardless
of the current mode and of whether the enemy-turn clock fired — precisely on
those calls where the visibility scan finds no visible hostile; when the
scan finds one it returns early and the active-projectile collection is left
untouched.  This holds for every AI pass. -/
theorem projectiles_advance_iff_no_visible_hostile (f : World → World) (t : Int) (w : World) :
    (findVisibleHostile w w.actors = none →
        updateRealtime f t w = updateProjectiles (enemyClockStep f t (exitCombatCheck w)))
    ∧ (∀ a, findVisibleHostile w w.actors = some a →
        (updateRealtime f t w).active_projectiles = w.active_projectiles) := by
  constructor
  · intro hnone
    unfold updateRealtime
    rw [hnone]
  · intro a hsome
    unfold updateRealtime
    rw [hsome]
    dsimp only
    split
    · rfl
    · rfl

/-- Witness for C5 (amended): with nothing visible the call equals one
projectile frame on top of the mode/clock bookkeeping. -/
theorem projectiles_advance_iff_no_visible_hostile_witness :
    updateRealtime id 5 c5bWorld = updateProjectiles (enemyClockStep id 5 (exitCombatCheck c5bWorld)) :=
  (projectiles_advance_iff_no_visible_hostile id 5 c5bWorld).1 rfl

/-- C6: the visibility scan of update_realtime equals a first-match search
over the live actors (short-circuiting on the first visible hostile); when it
finds one, the mode after the call is TurnBased, with the combat-started
message logged exactly on the Exploration-to-TurnBased edge and the state
otherwise untouched; when it finds none, the mode after the call is
Exploration, with a combat-ended message logged on the TurnBased-to-
Exploration edge.  Holds for every AI pass that does not write the mode and
only appends to the log, which is true of handle_enemy_turns. -/
theorem scheduler_mode_matches_visible_hostiles (f : World → World) (t : Int) (w : World)
    (hf : ∀ v, (f v).game_state = v.game_state)
    (hflog : ∀ v, ∃ ext, (f v).log = v.log ++ ext) :
    (findVisibleHostile w w.actors
        = w.actors.find? (fun a => a.id != w.player_id && a.ai.isSome && w.gmap.visible a.x a.y))
    ∧ ((findVisibleHostile w w.actors).isSome = true
        ↔ ∃ a ∈ w.actors, a.id ≠ w.player_id ∧ a.ai.isSome = true ∧ w.gmap.visible a.x a.y = true)
    ∧ ((findVisibleHostile w w.actors).isSome = true →
        (updateRealtime f t w).game_state = GameState.turn_based
        ∧ (w.game_state = GameState.exploration →
            updateRealtime f t w
              = { w with game_state := GameState.turn_based, log := w.log ++ [Msg.combatStarted] })
        ∧ (w.game_state = GameState.turn_based → updateRealtime f t w = w))
    ∧ (findVisibleHostile w w.actors = none →
        (updateRealtime f t w).game_state = GameState.exploration
        ∧ (w.game_state = GameState.turn_based →
            ∃ ext, (updateRealtime f t w).log = (w.log ++ [Msg.combatEnded]) ++ ext)) := by
  refine ⟨?_, ?_, ?_, ?_⟩
  · induction w.actors with
    | nil => rfl
    | cons a rest ih =>
      unfold findVisibleHostile
      rw [List.find?]
      cases hc : (a.id != w.player_id && a.ai.isSome && w.gmap.visible a.x a.y) with
      | true => simp [hc]
      | false => simp [hc, ih]
  · rw [show findVisibleHostile w w.actors
        = w.actors.find? (fun a => a.id != w.player_id && a.ai.isSome && w.gmap.visible a.x a.y) from ?_]
    · rw [List.find?_isSome]
      constructor
      · rintro ⟨a, ha, hp⟩
        simp only [Bool.and_eq_true, bne_iff_ne] at hp
        exact ⟨a, ha, hp.1.1, hp.1.2, hp.2⟩
      · rintro ⟨a, ha, h1, h2, h3⟩
        refine ⟨a, ha, ?_⟩
        simp only [Bool.and_eq_true, bne_iff_ne]
        exact ⟨⟨h1, h2⟩, h3⟩
    · induction w.actors with
      | nil => rfl
      | cons a rest ih =>
        unfold findVisibleHostile
        rw [List.find?]
        cases hc : (a.id != w.player_id && a.ai.isSome && w.gmap.visible a.x a.y) with
        | true => simp [hc]
        | false => simp [hc, ih]
  · intro hsome
    obtain ⟨a, ha⟩ := Option.isSome_iff_exists.mp hsome
    unfold updateRealtime
    rw [ha]
    dsimp only
    refine ⟨?_, ?_, ?_⟩
    · split
      · rfl
      · rename_i h
        cases hg : w.game_state with
        | exploration => exact absurd hg h
        | turn_based => exact hg ▸ rfl
    · intro hg
      rw [if_pos hg]
    · intro hg
      rw [if_neg (by rw [hg]; intro hc; cases hc)]
  · intro hnone
    unfold updateRealtime
    rw [hnone]
    dsimp only
    constructor
    · rw [updateProjectiles_game_state, enemyClockStep_game_state f t _ hf,
        exitCombatCheck_game_state]
    · intro hg
      obtain ⟨e1, he1⟩ := enemyClockStep_log f t (exitCombatCheck w) hflog
      obtain ⟨e2, he2⟩ := updateProjectiles_log_append (enemyClockStep f t (exitCombatCheck w))
      refine ⟨e1 ++ e2, ?_⟩
      rw [he2, he1, exitCombatCheck_log_turn_based w hg, List.append_assoc]

/-- Witness for C6: with the hostile id 1 visible while exploring, the call
switches the mode to TurnBased and logs the combat-started message. -/
theorem scheduler_mode_matches_visible_hostiles_witness :
    (updateRealtime id 0 c6World).game_state = GameState.turn_based
    ∧ updateRealtime id 0 c6World
        = { c6World with
              game_state := GameState.turn_based,
              log := c6World.log ++ [Msg.combatStarted] } := by
  have h := scheduler_mode_matches_visible_hostiles id 0 c6World
    (fun v => rfl) (fun v => ⟨[], by simp⟩)
  have hs := h.2.2.1 (by rfl)
  exact ⟨hs.1, hs.2.1 rfl⟩

set_option maxRecDepth 40000 in
set_option maxHeartbeats 4000000 in
/-- C8: for the expanding-ring projectile with range 4 spawned at the owner's
position (10,10): each of the first four updates increments the radius by one
without finishing, collisions are only ever tested on cells of the outer
Chebyshev ring of the current radius, the done flag is true after exactly 5
update calls, and an actor standing at Chebyshev distance 2 from the origin
has damage applied to it exactly once over the whole simulation (hp 30 before
update 2, hp 24 from update 2 on). -/
theorem shockwave_ring_behavior (ax ay : Int)
    (hdist : max |ax - 10| |ay - 10| = 2) :
    ((∀ u : Fin 5, (projIter (c8World ax ay) c8Proj u.val).2.expanding_radius = (u.val : Int)
        ∧ (projIter (c8World ax ay) c8Proj u.val).2.done = false)
      ∧ (projIter (c8World ax ay) c8Proj 5).2.done = true
      ∧ (∀ u : Fin 6, hpOf (projIter (c8World ax ay) c8Proj u.val).1 1
          = if u.val ≤ 1 then 30 else 24))
    ∧ (∀ r : Int, 0 < r → ∀ c ∈ ringProbes 10 10 r, max |c.1 - 10| |c.2 - 10| = r) := by
  constructor
  · have h1 : |ax - 10| ≤ 2 := le_trans (le_max_left _ _) (le_of_eq hdist)
    have h2 : |ay - 10| ≤ 2 := le_trans (le_max_right _ _) (le_of_eq hdist)
    obtain ⟨ha1, ha2⟩ : 8 ≤ ax ∧ ax ≤ 12 := by have := abs_le.mp h1; omega
    obtain ⟨hb1, hb2⟩ : 8 ≤ ay ∧ ay ≤ 12 := by have := abs_le.mp h2; omega
    interval_cases ax <;> interval_cases ay <;>
      first
        | exact absurd hdist (by decide)
        | decide
  · exact fun r hr => ringProbes_chebyshev 10 10 r hr

set_option maxRecDepth 40000 in
/-- Witness for C8 at the concrete cell (12,10), Chebyshev distance 2 from
(10,10): done after 5 updates, victim untouched through update 1 and damaged
exactly once from update 2 on. -/
theorem shockwave_ring_behavior_witness :
    (projIter (c8World 12 10) c8Proj 5).2.done = true
    ∧ hpOf (projIter (c8World 12 10) c8Proj 1).1 1 = 30
    ∧ hpOf (projIter (c8World 12 10) c8Proj 2).1 1 = 24
    ∧ hpOf (projIter (c8World 12 10) c8Proj 5).1 1 = 24 := by
  have h := shockwave_ring_behavior 12 10 (by decide)
  refine ⟨h.1.2.1, ?_, ?_, ?_⟩
  · have := h.1.2.2 ⟨1, by omega⟩
    simpa using this
  · have := h.1.2.2 ⟨2, by omega⟩
    simpa using this
  · have := h.1.2.2 ⟨5, by omega⟩
    simpa using this

/-- C9 counterexample: the cost-grid loop does not exclude the pathing actor
itself: in a world whose only blocking entity is the pathing actor, standing
on the walkable tile (1,1), that tile's cost is 1 + 10 = 11, not the base
cost 1 the claim requires for tiles occupied by no blocking entity other
than the pathing actor. -/
theorem pathfinder_cost_self_tile_counterexample :
    costGrid c9World 1 1 = 11 ∧ costGrid c9World 1 1 ≠ 1 := by
  exact ⟨rfl, by decide⟩

/-- C9 (amended): in the pathfinder's cost grid, every walkable tile receives
an additive +10 penalty per movement-blocking entity standing on it —
including the pathing actor itself, which the loop does not exclude — while
walkable tiles with no blocking entity keep the base cost 1 and non-walkable
tiles cost 0; the route returned by the external pathfinder, which begins at
the start cell, is returned with that start cell dropped, so a pathfinder
result of just the start cell (its no-path signal) yields the empty
sequence. -/
theorem pathfinder_cost_and_start_exclusion
    (pf : (Int → Int → Int) → Int × Int → Int × Int → List (Int × Int))
    (w : World) (eid : Nat) (dest : Int × Int) (e : Actor)
    (he : getActorById w eid = some e) :
    (∀ x y : Int, costGrid w x y
        = if w.gmap.walkable x y
          then 1 + 10 * ((w.actors.filter
              (fun a => a.blocks_movement && (a.x == x && a.y == y))).length : Int)
          else 0)
    ∧ (∀ rest : List (Int × Int), pf (costGrid w) (e.x, e.y) dest = (e.x, e.y) :: rest →
        get_path_to pf w eid dest = rest)
    ∧ (pf (costGrid w) (e.x, e.y) dest = [(e.x, e.y)] →
        get_path_to pf w eid dest = []) := by
  refine ⟨?_, ?_, ?_⟩
  · intro x y
    unfold costGrid
    by_cases hw : w.gmap.walkable x y = true
    · rw [if_pos hw]
      dsimp only
      rw [if_pos hw]
      exact costFold_pos x y w.actors 1 (by omega)
    · rw [if_neg hw]
      dsimp only
      rw [if_neg hw]
      exact costFold_zero x y w.actors
  · intro rest hroute
    unfold get_path_to
    rw [he]
    dsimp only
    rw [hroute]
    rfl
  · intro hroute
    unfold get_path_to
    rw [he]
    dsimp only
    rw [hroute]
    rfl

/-- Witness for C9 (amended): on the 3 by 3 world the pathing actor's own
tile costs 11 as the characterization says, and a pathfinder returning only
the root yields the empty path. -/
theorem pathfinder_cost_and_start_exclusion_witness :
    costGrid c9World 1 1
      = (if c9World.gmap.walkable 1 1
          then 1 + 10 * ((c9World.actors.filter
              (fun a => a.blocks_movement && (a.x == 1 && a.y == 1))).length : Int)
          else 0)
    ∧ get_path_to (fun _ s _ => [s]) c9World 0 (2, 2) = [] := by
  have h := pathfinder_cost_and_start_exclusion (fun _ s _ => [s]) c9World 0 (2, 2)
    (mkActor 0 1 1 (mkFighter 10 3 0 [])) rfl
  exact ⟨h.1 1 1, h.2.2 rfl⟩

end Rogue
